import Mathlib

/-!
Shallow embedding of the astgen-go value literalizer (build.go and type.go)
and proofs about its specification.

The embedding follows the Go source:
  * `Expr` mirrors the subset of `go/ast` expression nodes the builder
    constructs (`Ident`, `BasicLit`, `CallExpr`, `ParenExpr`, `CompositeLit`,
    `KeyValueExpr`, `UnaryExpr` with `token.AND`, `StarExpr`, `ArrayType`,
    `MapType`, `InterfaceType`, `StructType`, `FuncLit`).  A `FuncLit` body in
    the source is always `BlockStmt{List: [ReturnStmt{Results: rs}]}`; the
    embedding stores the `Results` list `rs` in the `bodyRet` field.
  * `Ty` mirrors the subset of `reflect.Type` kinds handled by `buildType`.
  * `Value` mirrors `reflect.Value` for the kinds handled by `buildInner`;
    a Go map value carries its entries in iteration order, which the host
    runtime leaves unspecified, so theorems about iteration-order
    independence quantify over permutations of the entry list.
  * Go strings are modelled as `List Char` (the source only manipulates
    valid UTF-8 text); byte lengths are recovered with `Char.utf8Size`.
  * fallible Go functions returning `(T, error)` become `Except Err T`.
-/

set_option linter.unnecessarySeqFocus false

namespace AstgenGo

/-- Subset of `go/token` literal kinds used by the builder
(`token.INT`, `token.FLOAT`, `token.STRING`). -/
inductive LitKind where
  | int
  | float
  | str
deriving DecidableEq, Repr

/-- Expression nodes, mirroring the `go/ast` nodes constructed in build.go and
type.go.  `arrayType none e` is a slice type `[]e`; `arrayType (some n) e` is
`[n]e`.  `structType` fields and `funcLit` parameters are `(names, type)`
groups exactly like `ast.Field`. -/
inductive Expr where
  | ident (name : String)
  | basicLit (kind : LitKind) (value : String)
  | call (fn : Expr) (args : List Expr)
  | paren (x : Expr)
  | composite (ty : Expr) (elts : List Expr)
  | kv (key value : Expr)
  | addrOf (x : Expr)
  | star (x : Expr)
  | arrayType (len : Option Expr) (elt : Expr)
  | mapType (key value : Expr)
  | ifaceType
  | structType (fields : List (List String × Expr))
  | funcLit (params results : List (List String × Expr)) (bodyRet : List Expr)
deriving Repr

mutual

/-- Structural equality of expression trees: the model of `reflect.DeepEqual`
on `ast.Expr` values as used by `getVarName` and `buildType` (all position
fields are zero in nodes the builder creates, so `DeepEqual` is exactly
structural equality). -/
def Expr.beq : Expr → Expr → Bool
  | .ident a, .ident b => a == b
  | .basicLit k v, .basicLit k2 v2 => k == k2 && v == v2
  | .call f a, .call f2 a2 => Expr.beq f f2 && beqList a a2
  | .paren a, .paren b => Expr.beq a b
  | .composite t e, .composite t2 e2 => Expr.beq t t2 && beqList e e2
  | .kv k v, .kv k2 v2 => Expr.beq k k2 && Expr.beq v v2
  | .addrOf a, .addrOf b => Expr.beq a b
  | .star a, .star b => Expr.beq a b
  | .arrayType l e, .arrayType l2 e2 => beqOpt l l2 && Expr.beq e e2
  | .mapType k v, .mapType k2 v2 => Expr.beq k k2 && Expr.beq v v2
  | .ifaceType, .ifaceType => true
  | .structType f, .structType f2 => beqFieldList f f2
  | .funcLit p r b, .funcLit p2 r2 b2 => beqFieldList p p2 && beqFieldList r r2 && beqList b b2
  | _, _ => false

/-- Structural equality on optional length expressions. -/
def beqOpt : Option Expr → Option Expr → Bool
  | none, none => true
  | some a, some b => Expr.beq a b
  | _, _ => false

/-- Structural equality on expression lists. -/
def beqList : List Expr → List Expr → Bool
  | [], [] => true
  | a :: as_, b :: bs => Expr.beq a b && beqList as_ bs
  | _, _ => false

/-- Structural equality on field-group lists. -/
def beqFieldList : List (List String × Expr) → List (List String × Expr) → Bool
  | [], [] => true
  | (n, t) :: as_, (n2, t2) :: bs => n == n2 && Expr.beq t t2 && beqFieldList as_ bs
  | _, _ => false

end

mutual

/-- Rendering of an expression to source text: the model of
`printer.Fprint(buf, token.NewFileSet(), e)` on a standalone node, used by the
map-entry comparator in `buildInner`.  For the node shapes the comparator can
meet, `go/printer` output is reproduced exactly (identifiers and literals
verbatim, `k: v` for key-value pairs, comma-space separated argument and
element lists, `interface {\n}` for the empty interface type).  Multi-line
tab-alignment of anonymous struct and func types is approximated without the
tabwriter; no theorem below depends on those two cases. -/
def render : Expr → String
  | .ident n => n
  | .basicLit _ v => v
  | .call f args => render f ++ "(" ++ String.intercalate ", " (renderList args) ++ ")"
  | .paren x => "(" ++ render x ++ ")"
  | .composite t elts => render t ++ "\x7b" ++ String.intercalate ", " (renderList elts) ++ "\x7d"
  | .kv k v => render k ++ ": " ++ render v
  | .addrOf x => "&" ++ render x
  | .star x => "*" ++ render x
  | .arrayType none e => "[]" ++ render e
  | .arrayType (some n) e => "[" ++ render n ++ "]" ++ render e
  | .mapType k v => "map[" ++ render k ++ "]" ++ render v
  | .ifaceType => "interface \x7b\n\x7d"
  | .structType fields => "struct \x7b\n" ++ String.join (renderFieldList fields) ++ "\x7d"
  | .funcLit ps rs body =>
      "func(" ++ String.join (renderFieldList ps) ++ ") " ++
        String.join (renderFieldList rs) ++ " " ++ String.intercalate ", " (renderList body)

/-- Rendering of each expression of a list. -/
def renderList : List Expr → List String
  | [] => []
  | e :: es => render e :: renderList es

/-- Rendering of each field group of a list. -/
def renderFieldList : List (List String × Expr) → List String
  | [] => []
  | (ns, t) :: fs => (String.intercalate ", " ns ++ " " ++ render t) :: renderFieldList fs

end

/-- Subset of `reflect.Type` the builder handles.  `struct_ name fields`
carries the declared name (empty for an anonymous struct) and the field
`(name, type)` list in declaration order; `func` and `chan_` are the
unsupported kinds reached by `buildType`'s and `buildInner`'s `default`
branches. -/
inductive Ty where
  | bool
  | int
  | int8
  | int16
  | int32
  | int64
  | uint
  | uint8
  | uint16
  | uint32
  | uint64
  | float32
  | float64
  | complex64
  | complex128
  | string
  | iface
  | array (n : Nat) (elem : Ty)
  | slice (elem : Ty)
  | map (key val : Ty)
  | struct_ (name : String) (fields : List (String × Ty))
  | ptr (elem : Ty)
  | func
  | chan_
deriving Repr

/-- Error values of the build: `unexpectedType t` models
`&unexpectedTypeError{t}` (message `unexpected type: <kind>`).  The only other
error site in the source, `buildExpr`'s `expected ast.Expr but got: %T`
internal-consistency check, is dead code — `buildInner` already returns
`ast.Expr` — so it has no constructor here. -/
inductive Err where
  | unexpectedType (t : Ty)
deriving Repr

mutual

/-- Model of `buildType` (type.go): maps a runtime type to its type
expression.  Named structs render as their name; anonymous structs group
consecutive fields whose type expressions are `reflect.DeepEqual` into one
field group, exactly like the `prevType` loop in the source. -/
def buildType : Ty → Except Err Expr
  | .bool => .ok (.ident "bool")
  | .int => .ok (.ident "int")
  | .int8 => .ok (.ident "int8")
  | .int16 => .ok (.ident "int16")
  | .int32 => .ok (.ident "int32")
  | .int64 => .ok (.ident "int64")
  | .uint => .ok (.ident "uint")
  | .uint8 => .ok (.ident "uint8")
  | .uint16 => .ok (.ident "uint16")
  | .uint32 => .ok (.ident "uint32")
  | .uint64 => .ok (.ident "uint64")
  | .float32 => .ok (.ident "float32")
  | .float64 => .ok (.ident "float64")
  | .complex64 => .ok (.ident "complex64")
  | .complex128 => .ok (.ident "complex128")
  | .string => .ok (.ident "string")
  | .iface => .ok .ifaceType
  | .array n e =>
    match buildType e with
    | .error er => .error er
    | .ok te => .ok (.arrayType (some (.basicLit .int (toString n))) te)
  | .slice e =>
    match buildType e with
    | .error er => .error er
    | .ok te => .ok (.arrayType none te)
  | .map k v =>
    match buildType k with
    | .error er => .error er
    | .ok ke =>
      match buildType v with
      | .error er => .error er
      | .ok ve => .ok (.mapType ke ve)
  | .struct_ name fields =>
    if name ≠ "" then .ok (.ident name)
    else
      match buildTypeFields fields with
      | .error er => .error er
      | .ok fs => .ok (.structType fs)
  | .ptr e =>
    match buildType e with
    | .error er => .error er
    | .ok te => .ok (.star te)
  | .func => .error (.unexpectedType .func)
  | .chan_ => .error (.unexpectedType .chan_)

/-- Field grouping of an anonymous struct type: a field joins the previous
group iff its type expression equals the previous field's (`reflect.DeepEqual
(prevType, t)` in the source), so groups are maximal runs of consecutive
equal type expressions. -/
def buildTypeFields : List (String × Ty) → Except Err (List (List String × Expr))
  | [] => .ok []
  | (n, t) :: rest =>
    match buildType t with
    | .error er => .error er
    | .ok te =>
      match buildTypeFields rest with
      | .error er => .error er
      | .ok [] => .ok [([n], te)]
      | .ok ((ns, te2) :: gs) =>
        if Expr.beq te te2 then .ok ((n :: ns, te2) :: gs)
        else .ok (([n], te) :: (ns, te2) :: gs)

end

/-- Exact decimal model of a Go `float64` value: the value
`mantissa / 10 ^ frac`, recorded by the digit string of its shortest decimal
representation.  Addresses the modelling of IEEE 754 doubles: every float the
development evaluates has an exact short decimal form, stored here as the
integer `mantissa` with `frac` fractional digits (normalised: when
`frac > 0`, `mantissa` is not divisible by 10). -/
structure GoFloat where
  mantissa : Int
  frac : Nat
deriving DecidableEq, Repr

/-- Model of `fmt.Sprint` on a `float64` (Go `%v`, i.e. `strconv.FormatFloat
(f, 'g', -1, 64)`): the shortest decimal digit string that round-trips, with
no exponent for the magnitudes used here and — decisive for the claims below
— no trailing `.0` on integral values (`fmt.Sprint(3.0)` is `"3"`). -/
def fmtGoFloat (f : GoFloat) : String :=
  if f.frac = 0 then toString f.mantissa
  else
    let ds := toString f.mantissa.natAbs
    let padded := String.mk (List.replicate (f.frac + 1 - ds.length) '0') ++ ds
    let cut := padded.length - f.frac
    (if f.mantissa < 0 then "-" else "") ++
      (padded.take cut) ++ "." ++ (padded.drop cut)

/-- Model of `fmt.Sprint` on a complex value: `(re+imi)` with the imaginary
part always carrying an explicit sign. -/
def fmtGoComplex (re im : GoFloat) : String :=
  "(" ++ fmtGoFloat re ++ (if 0 ≤ im.mantissa then "+" ++ fmtGoFloat im else fmtGoFloat im) ++
    "i)"

/-- Subset of `reflect.Value` the builder handles.  `invalid` is the zero
`reflect.Value` (untyped nil, or `Elem()` of a nil pointer or nil interface).
A map value carries `(key, value)` entries in iteration order; a pointer
carries its element type (for `v.Elem().Type()`) and `none` when nil; an
interface value carries the dynamic element (`invalid` when nil).  `funcV`
and `chanV` are representatives of the unsupported kinds. -/
inductive Value where
  | invalid
  | boolV (b : Bool)
  | intV (i : Int)
  | int8V (i : Int)
  | int16V (i : Int)
  | int32V (i : Int)
  | int64V (i : Int)
  | uintV (n : Nat)
  | uint8V (n : Nat)
  | uint16V (n : Nat)
  | uint32V (n : Nat)
  | uint64V (n : Nat)
  | float32V (f : GoFloat)
  | float64V (f : GoFloat)
  | complex64V (re im : GoFloat)
  | complex128V (re im : GoFloat)
  | stringV (s : List Char)
  | ifaceV (elem : Value)
  | arrayV (elemTy : Ty) (elems : List Value)
  | sliceV (elemTy : Ty) (elems : List Value)
  | mapV (keyTy valTy : Ty) (entries : List (Value × Value))
  | structV (name : String) (fields : List (String × Value))
  | ptrV (elemTy : Ty) (elem : Option Value)
  | funcV
  | chanV
deriving Repr

mutual

/-- Model of `v.Type()` on the embedded values.  `tyOf .invalid` is arbitrary
(`reflect` would panic); the only call site, `build`'s wrapping step, is
unreachable for an invalid root because an invalid value creates no
bindings. -/
def tyOf : Value → Ty
  | .invalid => .iface
  | .boolV _ => .bool
  | .intV _ => .int
  | .int8V _ => .int8
  | .int16V _ => .int16
  | .int32V _ => .int32
  | .int64V _ => .int64
  | .uintV _ => .uint
  | .uint8V _ => .uint8
  | .uint16V _ => .uint16
  | .uint32V _ => .uint32
  | .uint64V _ => .uint64
  | .float32V _ => .float32
  | .float64V _ => .float64
  | .complex64V _ _ => .complex64
  | .complex128V _ _ => .complex128
  | .stringV _ => .string
  | .ifaceV _ => .iface
  | .arrayV t es => .array es.length t
  | .sliceV t _ => .slice t
  | .mapV k v _ => .map k v
  | .structV n fs => .struct_ n (tyOfFields fs)
  | .ptrV t _ => .ptr t
  | .funcV => .func
  | .chanV => .chan_

/-- Field types of a struct value. -/
def tyOfFields : List (String × Value) → List (String × Ty)
  | [] => []
  | (n, v) :: fs => (n, tyOf v) :: tyOfFields fs

end

mutual

/-- Modelled from the spec: the function `isZero` called by `buildInner`'s
struct case is not under src/ (only its call site is), so it is modelled
from the spec's recursive zero-value definition — "Nil for references, false,
empty text, zero numeric, empty sequence/map, all-zero record".  Nil
references (nil pointer, nil interface) are zero; an unsupported value with
no literal state (`funcV`, `chanV`) is treated as a nil reference. -/
def isZero : Value → Bool
  | .invalid => true
  | .boolV b => !b
  | .intV i => i == 0
  | .int8V i => i == 0
  | .int16V i => i == 0
  | .int32V i => i == 0
  | .int64V i => i == 0
  | .uintV n => n == 0
  | .uint8V n => n == 0
  | .uint16V n => n == 0
  | .uint32V n => n == 0
  | .uint64V n => n == 0
  | .float32V f => f.mantissa == 0
  | .float64V f => f.mantissa == 0
  | .complex64V re im => re.mantissa == 0 && im.mantissa == 0
  | .complex128V re im => re.mantissa == 0 && im.mantissa == 0
  | .stringV s => s.isEmpty
  | .ifaceV e =>
    match e with
    | .invalid => true
    | _ => false
  | .arrayV _ es => es.isEmpty
  | .sliceV _ es => es.isEmpty
  | .mapV _ _ entries => entries.isEmpty
  | .structV _ fs => isZeroFields fs
  | .ptrV _ e => e.isNone
  | .funcV => true
  | .chanV => true

/-- All fields of a record are zero. -/
def isZeroFields : List (String × Value) → Bool
  | [] => true
  | (_, v) :: fs => isZero v && isZeroFields fs

end

/-- Back-quote character, the delimiter of Go raw string literals. -/
def bq : Char := Char.ofNat 96

/-- Carriage-return character (discarded inside Go raw string literals). -/
def crChar : Char := Char.ofNat 13

/-- Model of `unicode.IsPrint` as used by `strconv.Quote`: on ASCII exactly
the graphic range 0x20–0x7e; outside ASCII this model treats every rune
except the C1 control block 0x80–0x9f as printable, which agrees with the
full Unicode tables on every character this development evaluates. -/
def goIsPrint (c : Char) : Bool :=
  if c.toNat < 0x80 then decide (0x20 ≤ c.toNat) && decide (c.toNat ≤ 0x7e)
  else decide (0xa0 ≤ c.toNat)

/-- Lower-case hexadecimal digit. -/
def hexDigit (n : Nat) : Char :=
  if n < 10 then Char.ofNat (48 + n) else Char.ofNat (87 + n)

/-- Two-digit lower-case hexadecimal form of `n % 256`. -/
def hex2 (n : Nat) : List Char :=
  [hexDigit (n / 16 % 16), hexDigit (n % 16)]

/-- Four-digit lower-case hexadecimal form of `n % 65536`. -/
def hex4 (n : Nat) : List Char :=
  [hexDigit (n / 4096 % 16), hexDigit (n / 256 % 16), hexDigit (n / 16 % 16), hexDigit (n % 16)]

/-- Eight-digit lower-case hexadecimal form. -/
def hex8 (n : Nat) : List Char :=
  hex4 (n / 65536) ++ hex4 (n % 65536)

/-- Model of the per-rune step of `strconv.Quote`: the quote character and
backslash are backslash-escaped, printable runes are copied verbatim, the
named control escapes come next, and every other rune gets a `\x`, `\u` or
`\U` escape by magnitude. -/
def goQuoteChar (c : Char) : List Char :=
  if c = '"' || c = '\\' then ['\\', c]
  else if goIsPrint c then [c]
  else if c = Char.ofNat 7 then ['\\', 'a']
  else if c = Char.ofNat 8 then ['\\', 'b']
  else if c = Char.ofNat 12 then ['\\', 'f']
  else if c = '\n' then ['\\', 'n']
  else if c = crChar then ['\\', 'r']
  else if c = '\t' then ['\\', 't']
  else if c = Char.ofNat 11 then ['\\', 'v']
  else if c.toNat < 0x80 then '\\' :: 'x' :: hex2 c.toNat
  else if c.toNat < 0x10000 then '\\' :: 'u' :: hex4 c.toNat
  else '\\' :: 'U' :: hex8 c.toNat

/-- Model of `strconv.Quote`: a double-quoted literal with each rune escaped
by `goQuoteChar`. -/
def goQuote (s : List Char) : List Char :=
  '"' :: (s.map goQuoteChar).flatten ++ ['"']

/-- Byte length of a Go string given as its rune sequence (`len(s)` in Go). -/
def utf8Len (s : List Char) : Nat :=
  (s.map Char.utf8Size).sum

/-- Value of a lower-case (or upper-case) hexadecimal digit character. -/
def hexVal (c : Char) : Option Nat :=
  if 48 ≤ c.toNat ∧ c.toNat ≤ 57 then some (c.toNat - 48)
  else if 97 ≤ c.toNat ∧ c.toNat ≤ 102 then some (c.toNat - 87)
  else none

/-- Combined value of four hexadecimal digit characters. -/
def hexVal4 (h1 h2 h3 h4 : Char) : Option Nat :=
  (hexVal h1).bind fun a => (hexVal h2).bind fun b =>
    (hexVal h3).bind fun c2 => (hexVal h4).map fun d =>
      4096 * a + 256 * b + 16 * c2 + d

mutual

/-- Decoder for the body of a double-quoted Go string literal (the part after
the opening quote, including the closing quote): the specification-side
inverse used to state that quoting never changes the decoded value. -/
def unqBody : List Char → Option (List Char)
  | [] => none
  | c :: rest =>
    if c = '"' then if rest.isEmpty then some [] else none
    else if c = '\\' then unqEsc rest
    else (unqBody rest).map (c :: ·)

/-- Decoder for the tail of a backslash escape. -/
def unqEsc : List Char → Option (List Char)
  | [] => none
  | e :: r =>
    if e = '"' ∨ e = '\\' then (unqBody r).map (e :: ·)
    else if e = 'a' then (unqBody r).map (Char.ofNat 7 :: ·)
    else if e = 'b' then (unqBody r).map (Char.ofNat 8 :: ·)
    else if e = 'f' then (unqBody r).map (Char.ofNat 12 :: ·)
    else if e = 'n' then (unqBody r).map ('\n' :: ·)
    else if e = 'r' then (unqBody r).map (crChar :: ·)
    else if e = 't' then (unqBody r).map ('\t' :: ·)
    else if e = 'v' then (unqBody r).map (Char.ofNat 11 :: ·)
    else if e = 'x' then unqHex2 r
    else if e = 'u' then unqHex4 r
    else if e = 'U' then unqHex8 r
    else none

/-- Decoder for the two hex digits of a `\x` escape. -/
def unqHex2 : List Char → Option (List Char)
  | h1 :: h2 :: r =>
    match hexVal h1, hexVal h2 with
    | some a, some b => (unqBody r).map (Char.ofNat (16 * a + b) :: ·)
    | _, _ => none
  | _ => none

/-- Decoder for the four hex digits of a `\u` escape. -/
def unqHex4 : List Char → Option (List Char)
  | h1 :: h2 :: h3 :: h4 :: r =>
    match hexVal4 h1 h2 h3 h4 with
    | some n => (unqBody r).map (Char.ofNat n :: ·)
    | none => none
  | _ => none

/-- Decoder for the eight hex digits of a `\U` escape. -/
def unqHex8 : List Char → Option (List Char)
  | h1 :: h2 :: h3 :: h4 :: h5 :: h6 :: h7 :: h8 :: r =>
    match hexVal4 h1 h2 h3 h4, hexVal4 h5 h6 h7 h8 with
    | some n1, some n2 => (unqBody r).map (Char.ofNat (65536 * n1 + n2) :: ·)
    | _, _ => none
  | _ => none

end

/-- Decoder of a Go string literal, raw or double-quoted: the
specification-side meaning of the literal text the builder emits.  A raw
literal decodes to its contents with carriage returns discarded (Go spec); a
double-quoted literal decodes through `unqBody`. -/
def decodeLit : List Char → Option (List Char)
  | [] => none
  | c :: rest =>
    if c = bq then
      if rest.getLast? = some bq ∧ ¬ rest.dropLast.contains bq then
        some (rest.dropLast.filter (· ≠ crChar))
      else none
    else if c = '"' then unqBody rest
    else none

/-- One binding of the scope manager: `builderVar` in the source. -/
structure BuilderVar where
  name : String
  typ : Expr
  expr : Expr
deriving Repr

/-- The builder's binding list (`builder.vars`), in creation order. -/
abbrev Scope := List BuilderVar

/-- Model of `(*builder).getVarName`: look up the first binding whose
`(typ, expr)` pair is `reflect.DeepEqual` to the request; otherwise append a
new binding named `"x" + strconv.Itoa(len(vars))`. -/
def getVarName (t v : Expr) (st : Scope) : String × Scope :=
  match st.find? (fun bv => Expr.beq t bv.typ && Expr.beq v bv.expr) with
  | some bv => (bv.name, st)
  | none =>
    let name := "x" ++ toString st.length
    (name, st ++ [⟨name, t, v⟩])

/-- Rendered text of an expression as a character sequence; Go compares the
rendered byte strings with `<`, and on valid UTF-8 byte order is exactly this
code-point lexicographic order. -/
def renderKey (e : Expr) : List Char :=
  (render e).data

/-- Insertion step of the sort model. -/
def insertByRender (e : Expr) : List Expr → List Expr
  | [] => [e]
  | x :: xs => if renderKey e ≤ renderKey x then e :: x :: xs else x :: insertByRender e xs

/-- Model of the `sort.Slice` call in `buildInner`'s map case, whose
comparator renders the two key-value expressions with `printer.Fprint` and
compares the strings with `<` (byte order, which on valid UTF-8 equals the
code-point order used here).  `sort.Slice` guarantees only a sorted
permutation; this insertion sort is one such, and coincides with it whenever
the rendered texts are pairwise distinct, which unique map keys ensure for
the key types evaluated below. -/
def sortByRender : List Expr → List Expr
  | [] => []
  | x :: xs => insertByRender x (sortByRender xs)

mutual

/-- Model of `(*builder).buildInner`: the recursive classify-and-build
walk over a value, threading the binding scope and failing fast with the
first error.  Each case is a direct transcription of the corresponding
`switch v.Kind()` case in build.go. -/
def buildInner : Value → Scope → Except Err (Expr × Scope)
  | .invalid, st => .ok (.ident "nil", st)
  | .boolV b, st => .ok (if b then (.ident "true", st) else (.ident "false", st))
  | .intV i, st => .ok (.basicLit .int (toString i), st)
  | .int8V i, st => .ok (.call (.ident "int8") [.basicLit .int (toString i)], st)
  | .int16V i, st => .ok (.call (.ident "int16") [.basicLit .int (toString i)], st)
  | .int32V i, st => .ok (.call (.ident "int32") [.basicLit .int (toString i)], st)
  | .int64V i, st => .ok (.call (.ident "int64") [.basicLit .int (toString i)], st)
  | .uintV n, st => .ok (.call (.ident "uint") [.basicLit .int (toString n)], st)
  | .uint8V n, st => .ok (.call (.ident "uint8") [.basicLit .int (toString n)], st)
  | .uint16V n, st => .ok (.call (.ident "uint16") [.basicLit .int (toString n)], st)
  | .uint32V n, st => .ok (.call (.ident "uint32") [.basicLit .int (toString n)], st)
  | .uint64V n, st => .ok (.call (.ident "uint64") [.basicLit .int (toString n)], st)
  | .float32V f, st => .ok (.call (.ident "float32") [.basicLit .float (fmtGoFloat f)], st)
  | .float64V f, st => .ok (.basicLit .float (fmtGoFloat f), st)
  | .complex64V re im, st =>
    .ok (.call (.ident "complex64") [.basicLit .float (fmtGoComplex re im)], st)
  | .complex128V re im, st =>
    .ok (.call (.ident "complex128") [.basicLit .float (fmtGoComplex re im)], st)
  | .stringV s, st =>
    if s.contains '"' && !(s.contains bq) then
      let s2 := s.filter (fun c => c ≠ '"')
      if utf8Len (goQuote s2) = utf8Len s2 + 2 then
        .ok (.basicLit .str (String.mk (bq :: (s ++ [bq]))), st)
      else .ok (.basicLit .str (String.mk (goQuote s)), st)
    else .ok (.basicLit .str (String.mk (goQuote s)), st)
  | .ifaceV e, st =>
    match buildInner e st with
    | .error er => .error er
    | .ok (ee, st1) =>
      match buildType .iface with
      | .error er => .error er
      | .ok te => .ok (.call te [ee], st1)
  | .arrayV t elems, st =>
    match buildValueList elems st with
    | .error er => .error er
    | .ok (es, st1) =>
      match buildType (.array elems.length t) with
      | .error er => .error er
      | .ok te => .ok (.composite te es, st1)
  | .sliceV t elems, st =>
    match buildValueList elems st with
    | .error er => .error er
    | .ok (es, st1) =>
      match buildType (.slice t) with
      | .error er => .error er
      | .ok te => .ok (.composite te es, st1)
  | .mapV kt vt entries, st =>
    match buildEntryList entries st with
    | .error er => .error er
    | .ok (pairs, st1) =>
      match buildType (.map kt vt) with
      | .error er => .error er
      | .ok te => .ok (.composite te (sortByRender pairs), st1)
  | .structV name fields, st =>
    match buildFieldList fields st with
    | .error er => .error er
    | .ok (es, st1) =>
      match buildType (tyOf (.structV name fields)) with
      | .error er => .error er
      | .ok te => .ok (.composite te es, st1)
  | .ptrV _ none, st =>
    -- the source calls buildExpr on v.Elem(), the invalid Value for a nil
    -- pointer; its result, the identifier nil, is inlined here (it is no
    -- BasicLit, so the direct address-of branch is taken)
    .ok (.addrOf (.ident "nil"), st)
  | .ptrV elemTy (some elem), st =>
    match buildInner elem st with
    | .error er => .error er
    | .ok (w, st1) =>
      match w with
      | .basicLit k val =>
        match buildType elemTy with
        | .error er => .error er
        | .ok te =>
          let (nm, st2) := getVarName te (.basicLit k val) st1
          .ok (.addrOf (.ident nm), st2)
      | _ => .ok (.addrOf w, st1)
  | .funcV, _st => .error (.unexpectedType .func)
  | .chanV, _st => .error (.unexpectedType .chan_)

/-- Sequential build of the elements of an array or slice. -/
def buildValueList : List Value → Scope → Except Err (List Expr × Scope)
  | [], st => .ok ([], st)
  | v :: vs, st =>
    match buildInner v st with
    | .error er => .error er
    | .ok (e, st1) =>
      match buildValueList vs st1 with
      | .error er => .error er
      | .ok (es, st2) => .ok (e :: es, st2)

/-- Sequential build of the `KeyValueExpr`s of a map, in iteration order,
key before value as in the source's `iter` loop. -/
def buildEntryList : List (Value × Value) → Scope → Except Err (List Expr × Scope)
  | [], st => .ok ([], st)
  | (k, v) :: ps, st =>
    match buildInner k st with
    | .error er => .error er
    | .ok (ke, st1) =>
      match buildInner v st1 with
      | .error er => .error er
      | .ok (ve, st2) =>
        match buildEntryList ps st2 with
        | .error er => .error er
        | .ok (es, st3) => .ok (.kv ke ve :: es, st3)

/-- Sequential build of the `KeyValueExpr`s of a struct, skipping fields
whose value is zero. -/
def buildFieldList : List (String × Value) → Scope → Except Err (List Expr × Scope)
  | [], st => .ok ([], st)
  | (n, v) :: fs, st =>
    if isZero v then buildFieldList fs st
    else
      match buildInner v st with
      | .error er => .error er
      | .ok (w, st1) =>
        match buildFieldList fs st1 with
        | .error er => .error er
        | .ok (ws, st2) => .ok (.kv (.ident n) w :: ws, st2)

end

/-- Model of `(*builder).build` followed by `Build`: build the expression
tree from an empty scope; if no binding was created return it bare, otherwise
wrap it in an immediately-invoked function literal with one parameter per
binding and the bindings' value expressions as arguments. -/
def build (v : Value) : Except Err Expr :=
  match buildInner v [] with
  | .error er => .error er
  | .ok (n, vars) =>
    if vars.isEmpty then .ok n
    else
      match buildType (tyOf v) with
      | .error er => .error er
      | .ok t =>
        .ok (.call
          (.paren (.funcLit (vars.map (fun bv => ([bv.name], bv.typ))) [([], t)] [n]))
          (vars.map (·.expr)))

/-- A value whose direct build result is a bare `*ast.BasicLit` — exactly the
plain-int, default-width-float and string kinds — so a pointer to it is
routed through `getVarName`. -/
def isScalarLit : Value → Bool
  | .intV _ => true
  | .float64V _ => true
  | .stringV _ => true
  | _ => false

mutual

/-- The recursive walk of `v` meets a value of an unsupported kind: `v` is a
func or chan value, or a sequence element, map key or value, interface
element, pointer target, or non-zero struct field recursively does (zero
fields are skipped by the struct case, hence excluded). -/
def hasUnsupported : Value → Bool
  | .funcV => true
  | .chanV => true
  | .ifaceV e => hasUnsupported e
  | .arrayV _ es => hasUnsupportedList es
  | .sliceV _ es => hasUnsupportedList es
  | .mapV _ _ ps => hasUnsupportedEntries ps
  | .structV _ fs => hasUnsupportedFields fs
  | .ptrV _ (some e) => hasUnsupported e
  | _ => false

/-- Some element of the list is reached and unsupported. -/
def hasUnsupportedList : List Value → Bool
  | [] => false
  | v :: vs => hasUnsupported v || hasUnsupportedList vs

/-- Some key or value of the entry list is reached and unsupported. -/
def hasUnsupportedEntries : List (Value × Value) → Bool
  | [] => false
  | (k, v) :: ps => hasUnsupported k || hasUnsupported v || hasUnsupportedEntries ps

/-- Some non-zero field of the list is reached and unsupported. -/
def hasUnsupportedFields : List (String × Value) → Bool
  | [] => false
  | (_, v) :: fs => (!isZero v && hasUnsupported v) || hasUnsupportedFields fs

end

mutual

/-- Building `v` allocates no binding: no pointer inside `v` targets a value
whose build result is a bare basic literal. -/
def bindFree : Value → Bool
  | .ifaceV e => bindFree e
  | .arrayV _ es => bindFreeList es
  | .sliceV _ es => bindFreeList es
  | .mapV _ _ ps => bindFreeEntries ps
  | .structV _ fs => bindFreeFields fs
  | .ptrV _ (some e) => !isScalarLit e && bindFree e
  | _ => true

/-- No element of the list allocates a binding. -/
def bindFreeList : List Value → Bool
  | [] => true
  | v :: vs => bindFree v && bindFreeList vs

/-- No key or value of the entry list allocates a binding. -/
def bindFreeEntries : List (Value × Value) → Bool
  | [] => true
  | (k, v) :: ps => bindFree k && bindFree v && bindFreeEntries ps

/-- No built field of the list allocates a binding (zero fields are
skipped). -/
def bindFreeFields : List (String × Value) → Bool
  | [] => true
  | (_, v) :: fs => (isZero v || bindFree v) && bindFreeFields fs

end

/-- Result expression of building `v` from the empty scope, discarding the
scope component (meaningful for binding-free values, whose build leaves the
scope untouched). -/
def pureExpr (v : Value) : Except Err Expr :=
  match buildInner v [] with
  | .error e => .error e
  | .ok (e, _) => .ok e

/-- List form of `pureExpr` for sequence elements. -/
def pureExprList (vs : List Value) : Except Err (List Expr) :=
  match buildValueList vs [] with
  | .error e => .error e
  | .ok (es, _) => .ok es

/-- Entry-pair form of `pureExpr` for map entries. -/
def pureEntryList (ps : List (Value × Value)) : Except Err (List Expr) :=
  match buildEntryList ps [] with
  | .error e => .error e
  | .ok (es, _) => .ok es

/-- Field form of `pureExpr` for struct fields. -/
def pureFieldList (fs : List (String × Value)) : Except Err (List Expr) :=
  match buildFieldList fs [] with
  | .error e => .error e
  | .ok (es, _) => .ok es

/-- Key-value expression of one map entry, built entry-locally. -/
def pureKV (p : Value × Value) : Except Err Expr :=
  match pureExpr p.1 with
  | .error e => .error e
  | .ok ke =>
    match pureExpr p.2 with
    | .error e => .error e
    | .ok ve => .ok (.kv ke ve)

/-- Entry-local build of every entry of a map, in iteration order. -/
def pureKVList : List (Value × Value) → Except Err (List Expr)
  | [] => .ok []
  | p :: ps =>
    match pureKV p with
    | .error e => .error e
    | .ok e =>
      match pureKVList ps with
      | .error e2 => .error e2
      | .ok es => .ok (e :: es)

/-- Entry expression with a placeholder in the error case. -/
def pureKVD (p : Value × Value) : Expr :=
  match pureKV p with
  | .error _ => .ident ""
  | .ok e => e

/-- The expression is no bare basic literal. -/
def notBasicLitP : Expr → Prop
  | .basicLit _ _ => False
  | _ => True


/-- Invariant of every scope reachable from the empty scope: the binding
names are exactly `x0, x1, ...` in creation order, and no two bindings carry
the same (type expression, value expression) pair. -/
def ScopeInv (st : Scope) : Prop :=
  st.map (·.name) = (List.range st.length).map (fun i => "x" ++ toString i) ∧
  st.Pairwise (fun a b => ¬ (a.typ = b.typ ∧ a.expr = b.expr))

/-- Reference form of `Nat.toDigits 10`: most-significant-first decimal digit
characters, via `Nat.digits`. -/
def specDigits (n : Nat) : List Char :=
  if n = 0 then ['0'] else ((Nat.digits 10 n).map Nat.digitChar).reverse

/-! ### Structural equality is propositional equality -/

theorem beqSound : ∀ n : Nat,
    (∀ a b : Expr, sizeOf a ≤ n → ((Expr.beq a b = true) ↔ a = b)) ∧
    (∀ a b : Option Expr, sizeOf a ≤ n → ((beqOpt a b = true) ↔ a = b)) ∧
    (∀ xs ys : List Expr, sizeOf xs ≤ n → ((beqList xs ys = true) ↔ xs = ys)) ∧
    (∀ fs gs : List (List String × Expr), sizeOf fs ≤ n →
      ((beqFieldList fs gs = true) ↔ fs = gs)) := by
  intro n
  induction n using Nat.strong_induction_on with
  | _ n ih =>
    refine ⟨?_, ?_, ?_, ?_⟩
    · intro a b hs
      cases a <;> cases b <;>
        (try (rw [Expr.beq] <;> simp <;> done)) <;>
        rw [Expr.beq] <;> simp at hs
      next f args f2 args2 =>
        rw [Bool.and_eq_true, (ih _ (by omega)).1 f f2 le_rfl,
          (ih _ (by omega)).2.2.1 args args2 le_rfl]
        simp
      next x x2 =>
        rw [(ih _ (by omega)).1 x x2 le_rfl]
        simp
      next t elts t2 elts2 =>
        rw [Bool.and_eq_true, (ih _ (by omega)).1 t t2 le_rfl,
          (ih _ (by omega)).2.2.1 elts elts2 le_rfl]
        simp
      next k v k2 v2 =>
        rw [Bool.and_eq_true, (ih _ (by omega)).1 k k2 le_rfl,
          (ih _ (by omega)).1 v v2 le_rfl]
        simp
      next x x2 =>
        rw [(ih _ (by omega)).1 x x2 le_rfl]
        simp
      next x x2 =>
        rw [(ih _ (by omega)).1 x x2 le_rfl]
        simp
      next l e l2 e2 =>
        rw [Bool.and_eq_true, (ih _ (by omega)).2.1 l l2 le_rfl,
          (ih _ (by omega)).1 e e2 le_rfl]
        simp
      next k v k2 v2 =>
        rw [Bool.and_eq_true, (ih _ (by omega)).1 k k2 le_rfl,
          (ih _ (by omega)).1 v v2 le_rfl]
        simp
      next fs gs =>
        rw [(ih _ (by omega)).2.2.2 fs gs le_rfl]
        simp
      next p r b p2 r2 b2 =>
        rw [Bool.and_eq_true, Bool.and_eq_true, (ih _ (by omega)).2.2.2 p p2 le_rfl,
          (ih _ (by omega)).2.2.2 r r2 le_rfl, (ih _ (by omega)).2.2.1 b b2 le_rfl]
        simp [and_assoc]
    · intro a b hs
      cases a <;> cases b <;> (try (rw [beqOpt] <;> simp <;> done)) <;>
        rw [beqOpt] <;> simp at hs
      next x x2 =>
        rw [(ih _ (by omega)).1 x x2 le_rfl]
        simp
    · intro xs ys hs
      cases xs <;> cases ys <;> (try (rw [beqList] <;> simp <;> done)) <;>
        rw [beqList] <;> simp at hs
      next x xs y ys =>
        rw [Bool.and_eq_true, (ih _ (by omega)).1 x y le_rfl,
          (ih _ (by omega)).2.2.1 xs ys le_rfl]
        simp
    · intro fs gs hs
      cases fs <;> cases gs <;> (try (rw [beqFieldList] <;> simp <;> done))
      next f fs g gs =>
        obtain ⟨n1, t1⟩ := f
        obtain ⟨n2, t2⟩ := g
        simp at hs
        rw [beqFieldList, Bool.and_eq_true, Bool.and_eq_true, (ih _ (by omega)).1 t1 t2 le_rfl,
          (ih _ (by omega)).2.2.2 fs gs le_rfl]
        simp [and_assoc]

theorem Expr.beq_iff (a b : Expr) : Expr.beq a b = true ↔ a = b :=
  (beqSound (sizeOf a)).1 a b le_rfl

theorem Expr.beq_refl (a : Expr) : Expr.beq a a = true :=
  (Expr.beq_iff a a).mpr rfl

/-! ### Injectivity of decimal binding names -/

theorem toDigitsCore_eq_specDigits : ∀ (f n : Nat) (acc : List Char), 0 < f → n < 10 ^ f →
    Nat.toDigitsCore 10 f n acc = specDigits n ++ acc := by
  intro f
  induction f with
  | zero => omega
  | succ f ih =>
    intro n acc _ hlt
    rw [Nat.toDigitsCore]
    by_cases hdiv : n / 10 = 0
    · rw [if_pos hdiv]
      by_cases hn : n = 0
      · subst hn
        rfl
      · have hn10 : n % 10 = n := Nat.mod_eq_of_lt (by omega)
        rw [specDigits, if_neg hn, Nat.digits_def' (by norm_num : 1 < 10) (Nat.pos_of_ne_zero hn),
          hdiv, Nat.digits_zero, hn10]
        simp
    · rw [if_neg hdiv]
      have hf : 0 < f := by
        rcases Nat.eq_zero_or_pos f with hf0 | hf0
        · subst hf0
          have h10 : n < 10 := by simpa using hlt
          omega
        · exact hf0
      have hlt2 : n / 10 < 10 ^ f := by
        have := (Nat.div_lt_iff_lt_mul (by norm_num : 0 < 10)).mpr
          (by rw [← pow_succ]; exact hlt)
        exact this
      rw [ih (n / 10) (Nat.digitChar (n % 10) :: acc) hf hlt2]
      have hn : n ≠ 0 := by omega
      have hspec : specDigits n = specDigits (n / 10) ++ [Nat.digitChar (n % 10)] := by
        rw [specDigits, if_neg hn, specDigits, if_neg hdiv,
          Nat.digits_def' (by norm_num : 1 < 10) (Nat.pos_of_ne_zero hn)]
        simp
      rw [hspec]
      simp

theorem toDigits_eq_specDigits (n : Nat) : Nat.toDigits 10 n = specDigits n := by
  have h1 : n < 10 ^ (n + 1) := by
    calc n < 10 ^ n := Nat.lt_pow_self (by norm_num) n
    _ ≤ 10 ^ (n + 1) := Nat.pow_le_pow_right (by norm_num) (by omega)
  have := toDigitsCore_eq_specDigits (n + 1) n [] (by omega) h1
  rw [Nat.toDigits, this]
  simp

theorem digitChar_inj (a b : Nat) (ha : a < 10) (hb : b < 10)
    (h : Nat.digitChar a = Nat.digitChar b) : a = b := by
  interval_cases a <;> interval_cases b <;> revert h <;> decide

theorem map_digitChar_inj : ∀ l1 l2 : List Nat, (∀ x ∈ l1, x < 10) → (∀ x ∈ l2, x < 10) →
    l1.map Nat.digitChar = l2.map Nat.digitChar → l1 = l2 := by
  intro l1
  induction l1 with
  | nil => intro l2 _ _ h; cases l2 <;> simp_all
  | cons x xs ih =>
    intro l2 h1 h2 h
    cases l2 with
    | nil => simp_all
    | cons y ys =>
      simp only [List.map_cons, List.cons.injEq] at h
      have hx := digitChar_inj x y (h1 x (by simp)) (h2 y (by simp)) h.1
      have := ih ys (fun a ha => h1 a (by simp [ha])) (fun a ha => h2 a (by simp [ha])) h.2
      simp [hx, this]

theorem specDigits_inj {m n : Nat} (h : specDigits m = specDigits n) : m = n := by
  by_cases hm : m = 0 <;> by_cases hn : n = 0
  · omega
  · exfalso
    rw [specDigits, if_pos hm, specDigits, if_neg hn] at h
    have h2 : (Nat.digits 10 n).map Nat.digitChar = ['0'] := by
      have := congrArg List.reverse h
      simpa using this.symm
    obtain ⟨d, hd, hmap⟩ : ∃ d, Nat.digits 10 n = [d] ∧ Nat.digitChar d = '0' := by
      cases hds : Nat.digits 10 n with
      | nil => simp [hds] at h2
      | cons d ds =>
        rw [hds] at h2
        simp only [List.map_cons, List.cons.injEq] at h2
        cases ds with
        | nil => exact ⟨d, rfl, h2.1⟩
        | cons e es => simp at h2
    have hdmem : d ∈ Nat.digits 10 n := by rw [hd]; simp
    have hd10 : d < 10 := Nat.digits_lt_base (by norm_num) hdmem
    have hd0 : d = 0 := digitChar_inj d 0 hd10 (by norm_num) (by simpa using hmap)
    have h4 := Nat.ofDigits_digits 10 n
    rw [hd, hd0] at h4
    exact hn (by simpa using h4.symm)
  · exfalso
    rw [specDigits, if_neg hm, specDigits, if_pos hn] at h
    have h2 : (Nat.digits 10 m).map Nat.digitChar = ['0'] := by
      have := congrArg List.reverse h
      simpa using this
    obtain ⟨d, hd, hmap⟩ : ∃ d, Nat.digits 10 m = [d] ∧ Nat.digitChar d = '0' := by
      cases hds : Nat.digits 10 m with
      | nil => simp [hds] at h2
      | cons d ds =>
        rw [hds] at h2
        simp only [List.map_cons, List.cons.injEq] at h2
        cases ds with
        | nil => exact ⟨d, rfl, h2.1⟩
        | cons e es => simp at h2
    have hdmem : d ∈ Nat.digits 10 m := by rw [hd]; simp
    have hd10 : d < 10 := Nat.digits_lt_base (by norm_num) hdmem
    have hd0 : d = 0 := digitChar_inj d 0 hd10 (by norm_num) (by simpa using hmap)
    have h4 := Nat.ofDigits_digits 10 m
    rw [hd, hd0] at h4
    exact hm (by simpa using h4.symm)
  · rw [specDigits, if_neg hm, specDigits, if_neg hn] at h
    have h2 := List.reverse_injective h
    have h3 := map_digitChar_inj _ _
      (fun x hx => Nat.digits_lt_base (by norm_num) hx)
      (fun x hx => Nat.digits_lt_base (by norm_num) hx) h2
    calc m = Nat.ofDigits 10 (Nat.digits 10 m) := (Nat.ofDigits_digits 10 m).symm
    _ = Nat.ofDigits 10 (Nat.digits 10 n) := by rw [h3]
    _ = n := Nat.ofDigits_digits 10 n

theorem natToString_inj {m n : Nat} (h : toString m = toString n) : m = n := by
  have h1 : Nat.toDigits 10 m = Nat.toDigits 10 n := by
    have h2 : (Nat.toDigits 10 m).asString = (Nat.toDigits 10 n).asString := h
    have h3 := congrArg String.data h2
    simpa [List.asString] using h3
  rw [toDigits_eq_specDigits, toDigits_eq_specDigits] at h1
  exact specDigits_inj h1

theorem xname_inj {m n : Nat} (h : "x" ++ toString m = "x" ++ toString n) : m = n := by
  apply natToString_inj
  have := congrArg String.data h
  simp only [String.data_append] at this
  apply String.ext
  simpa using this

/-! ### Claim C7: numeric width rendering -/

/-- C7: numeric values of the default width — plain int and default-width
float — build to a bare basic literal, while every other numeric width
(int8/16/32/64, all unsigned widths, float32, complex) builds to a call of
the width-qualified type name applied to the bare literal. -/
theorem c7_numeric_width :
    (∀ (i : Int) (st : Scope), buildInner (.intV i) st = .ok (.basicLit .int (toString i), st)) ∧
    (∀ (f : GoFloat) (st : Scope),
      buildInner (.float64V f) st = .ok (.basicLit .float (fmtGoFloat f), st)) ∧
    (∀ (i : Int) (st : Scope),
      buildInner (.int8V i) st = .ok (.call (.ident "int8") [.basicLit .int (toString i)], st)) ∧
    (∀ (i : Int) (st : Scope),
      buildInner (.int16V i) st = .ok (.call (.ident "int16") [.basicLit .int (toString i)], st)) ∧
    (∀ (i : Int) (st : Scope),
      buildInner (.int32V i) st = .ok (.call (.ident "int32") [.basicLit .int (toString i)], st)) ∧
    (∀ (i : Int) (st : Scope),
      buildInner (.int64V i) st = .ok (.call (.ident "int64") [.basicLit .int (toString i)], st)) ∧
    (∀ (u : Nat) (st : Scope),
      buildInner (.uintV u) st = .ok (.call (.ident "uint") [.basicLit .int (toString u)], st)) ∧
    (∀ (u : Nat) (st : Scope),
      buildInner (.uint8V u) st = .ok (.call (.ident "uint8") [.basicLit .int (toString u)], st)) ∧
    (∀ (u : Nat) (st : Scope),
      buildInner (.uint16V u) st =
        .ok (.call (.ident "uint16") [.basicLit .int (toString u)], st)) ∧
    (∀ (u : Nat) (st : Scope),
      buildInner (.uint32V u) st =
        .ok (.call (.ident "uint32") [.basicLit .int (toString u)], st)) ∧
    (∀ (u : Nat) (st : Scope),
      buildInner (.uint64V u) st =
        .ok (.call (.ident "uint64") [.basicLit .int (toString u)], st)) ∧
    (∀ (f : GoFloat) (st : Scope),
      buildInner (.float32V f) st =
        .ok (.call (.ident "float32") [.basicLit .float (fmtGoFloat f)], st)) ∧
    (∀ (re im : GoFloat) (st : Scope),
      buildInner (.complex64V re im) st =
        .ok (.call (.ident "complex64") [.basicLit .float (fmtGoComplex re im)], st)) ∧
    (∀ (re im : GoFloat) (st : Scope),
      buildInner (.complex128V re im) st =
        .ok (.call (.ident "complex128") [.basicLit .float (fmtGoComplex re im)], st)) :=
  ⟨fun _ _ => rfl, fun _ _ => rfl, fun _ _ => rfl, fun _ _ => rfl, fun _ _ => rfl,
   fun _ _ => rfl, fun _ _ => rfl, fun _ _ => rfl, fun _ _ => rfl, fun _ _ => rfl,
   fun _ _ => rfl, fun _ _ => rfl, fun _ _ _ => rfl, fun _ _ _ => rfl⟩

/-! ### Claim C6: integral floats lose their fractional marker (code bug) -/

/-- C6: the claim (and the repo's own test `{src: 3.00, expected: "3.0"}`)
requires an explicit fractional marker on integral floats, but the code
prints `fmt.Sprint(v.Float())`, which for the float64 value 3.0 yields the
text `3` — a basic literal with neither a decimal point nor an exponent, so
it parses as an integer literal.  Evaluating the embedded code at that
failing input: -/
theorem c6_code_evaluated :
    buildInner (.float64V ⟨3, 0⟩) [] = .ok (.basicLit .float "3", []) ∧
    fmtGoFloat ⟨3, 0⟩ = "3" ∧ '.' ∉ "3".data ∧ 'e' ∉ "3".data :=
  ⟨rfl, rfl, by decide, by decide⟩

/-! ### Claim C2: pointers to booleans and sized numerics are not routed
through the scope manager (code bug) -/

/-- C2: the claim (and the repo's own tests `map of pointers of booleans` and
`map of pointers of int, uint, float, complex, interface`) requires every
pointer-to-scalar — booleans and all non-default-width numerics included — to
be routed through the scope manager.  The code routes only results that are
bare `*ast.BasicLit`s; a boolean builds to an identifier and a sized numeric
to a call expression, so a pointer to `true` builds to a direct address-of
the identifier `true` and a pointer to `int8(10)` to a direct address-of the
conversion, neither valid Go, and no binding is created.  Evaluating the
embedded code at these failing inputs: -/
theorem c2_code_evaluated :
    buildInner (.ptrV .bool (some (.boolV true))) [] = .ok (.addrOf (.ident "true"), []) ∧
    buildInner (.ptrV .int8 (some (.int8V 10))) [] =
      .ok (.addrOf (.call (.ident "int8") [.basicLit .int "10"]), []) ∧
    buildInner (.ptrV .float32 (some (.float32V ⟨10, 0⟩))) [] =
      .ok (.addrOf (.call (.ident "float32") [.basicLit .float "10"]), []) :=
  ⟨rfl, rfl, rfl⟩

/-! ### Claim C4: the scope manager -/

theorem find_match (t v : Expr) :
    ∀ st : Scope, st.Pairwise (fun a b => ¬ (a.typ = b.typ ∧ a.expr = b.expr)) →
    ∀ bv ∈ st, bv.typ = t → bv.expr = v →
      st.find? (fun bv' => Expr.beq t bv'.typ && Expr.beq v bv'.expr) = some bv := by
  intro st
  induction st with
  | nil => intro _ bv h; simp at h
  | cons a rest ih =>
    intro hp bv hmem ht hv
    rw [List.pairwise_cons] at hp
    by_cases hpa : (Expr.beq t a.typ && Expr.beq v a.expr) = true
    · have hfind : (a :: rest).find? (fun bv' => Expr.beq t bv'.typ && Expr.beq v bv'.expr) =
          some a := List.find?_cons_of_pos rest hpa
      rw [hfind]
      rcases List.mem_cons.mp hmem with h | h
      · rw [h]
      · exfalso
        rw [Bool.and_eq_true, Expr.beq_iff, Expr.beq_iff] at hpa
        exact hp.1 bv h ⟨by rw [← hpa.1, ht], by rw [← hpa.2, hv]⟩
    · have hfind : (a :: rest).find? (fun bv' => Expr.beq t bv'.typ && Expr.beq v bv'.expr) =
          rest.find? (fun bv' => Expr.beq t bv'.typ && Expr.beq v bv'.expr) :=
        List.find?_cons_of_neg rest hpa
      rw [hfind]
      rcases List.mem_cons.mp hmem with h | h
      · exfalso
        rw [h] at ht hv
        rw [Bool.and_eq_true, Expr.beq_iff, Expr.beq_iff] at hpa
        exact hpa ⟨ht.symm, hv.symm⟩
      · exact ih hp.2 bv h ht hv

theorem find_none (t v : Expr) (st : Scope)
    (h : ∀ bv ∈ st, ¬ (bv.typ = t ∧ bv.expr = v)) :
    st.find? (fun bv' => Expr.beq t bv'.typ && Expr.beq v bv'.expr) = none := by
  rw [List.find?_eq_none]
  intro bv hmem
  intro hcontra
  rw [Bool.and_eq_true, Expr.beq_iff, Expr.beq_iff] at hcontra
  exact h bv hmem ⟨hcontra.1.symm, hcontra.2.symm⟩

theorem fresh_name_not_mem (st : Scope)
    (hnames : st.map (·.name) = (List.range st.length).map (fun i => "x" ++ toString i)) :
    ("x" ++ toString st.length) ∉ st.map (·.name) := by
  rw [hnames]
  intro hmem
  rw [List.mem_map] at hmem
  obtain ⟨i, hi, heq⟩ := hmem
  rw [List.mem_range] at hi
  have := xname_inj heq
  omega

/-- C4: within one build scope, `getVarName` returns the name of an existing
binding iff the requested (type expression, value expression) pair is
structurally equal to that binding's pair (by pair-uniqueness the match is
unique, so the first-match lookup returns exactly that binding's name, with
the scope untouched); otherwise it appends exactly one new binding whose
name is distinct from all existing names, and never modifies or removes an
existing binding.  Binding names are unique within a scope, and the scope
invariant is preserved, so repeated requests for structurally equal scalar
pairs collapse to the single shared binding. -/
theorem c4_scope_bindings (t v : Expr) (st : Scope) (hinv : ScopeInv st) :
    (st.map (·.name)).Nodup ∧
    (∀ bv ∈ st, bv.typ = t ∧ bv.expr = v → getVarName t v st = (bv.name, st)) ∧
    ((∀ bv ∈ st, ¬ (bv.typ = t ∧ bv.expr = v)) →
      getVarName t v st =
        ("x" ++ toString st.length, st ++ [⟨"x" ++ toString st.length, t, v⟩]) ∧
      ("x" ++ toString st.length) ∉ st.map (·.name)) ∧
    ScopeInv (getVarName t v st).2 := by
  obtain ⟨hnames, hpairs⟩ := hinv
  have hnodup : (st.map (·.name)).Nodup := by
    rw [hnames]
    exact (List.nodup_range _).map (fun a b h => xname_inj h)
  refine ⟨hnodup, ?_, ?_, ?_⟩
  · intro bv hmem hpair
    rw [getVarName, find_match t v st hpairs bv hmem hpair.1 hpair.2]
  · intro hnone
    rw [getVarName, find_none t v st hnone]
    exact ⟨rfl, fresh_name_not_mem st hnames⟩
  · by_cases hex : ∃ bv ∈ st, bv.typ = t ∧ bv.expr = v
    · obtain ⟨bv, hmem, hpair⟩ := hex
      rw [getVarName, find_match t v st hpairs bv hmem hpair.1 hpair.2]
      exact ⟨hnames, hpairs⟩
    · push_neg at hex
      have hnone : ∀ bv ∈ st, ¬ (bv.typ = t ∧ bv.expr = v) := by
        intro bv hmem hc
        exact (hex bv hmem hc.1) hc.2
      rw [getVarName, find_none t v st hnone]
      constructor
      · rw [List.map_append, List.length_append, hnames]
        simp only [List.map_cons, List.map_nil, List.length_cons, List.length_nil]
        rw [List.range_succ, List.map_append]
        rfl
      · rw [List.pairwise_append]
        refine ⟨hpairs, by simp, ?_⟩
        intro a hmem b hmemb
        simp only [List.mem_singleton] at hmemb
        subst hmemb
        simp only []
        intro hc
        exact hnone a hmem ⟨hc.1, hc.2⟩

/-- C4 witness: a concrete run from the empty scope — the first request for
`(*int, 42)` appends binding `x0`; repeating the same request returns `x0`
and leaves the scope untouched; a different value appends `x1`, distinct
from `x0`. -/
theorem c4_scope_bindings_witness :
    ScopeInv [] ∧
    getVarName (.ident "int") (.basicLit .int "42") [] =
      ("x0", [⟨"x0", .ident "int", .basicLit .int "42"⟩]) ∧
    getVarName (.ident "int") (.basicLit .int "42")
        [⟨"x0", .ident "int", .basicLit .int "42"⟩] =
      ("x0", [⟨"x0", .ident "int", .basicLit .int "42"⟩]) ∧
    getVarName (.ident "int") (.basicLit .int "7")
        [⟨"x0", .ident "int", .basicLit .int "42"⟩] =
      ("x1", [⟨"x0", .ident "int", .basicLit .int "42"⟩,
              ⟨"x1", .ident "int", .basicLit .int "7"⟩]) := by
  have hinv0 : ScopeInv [] := ⟨rfl, List.Pairwise.nil⟩
  have h1 := (c4_scope_bindings (.ident "int") (.basicLit .int "42") [] hinv0).2.2.1
    (by simp)
  have hinv1 : ScopeInv [⟨"x0", .ident "int", .basicLit .int "42"⟩] := by
    have := (c4_scope_bindings (.ident "int") (.basicLit .int "42") [] hinv0).2.2.2
    rw [(h1.1 : getVarName _ _ [] = _)] at this
    simpa using this
  have hc2 := (c4_scope_bindings (.ident "int") (.basicLit .int "42")
    [⟨"x0", .ident "int", .basicLit .int "42"⟩] hinv1).2.1
  have h2 := hc2 (⟨"x0", .ident "int", .basicLit .int "42"⟩ : BuilderVar) (by simp) ⟨rfl, rfl⟩
  have h3 := (c4_scope_bindings (.ident "int") (.basicLit .int "7")
    [⟨"x0", .ident "int", .basicLit .int "42"⟩] hinv1).2.2.1
    (by intro bv hmem; simp at hmem; subst hmem; simp)
  refine ⟨hinv0, by simpa using h1.1, h2, by simpa using h3.1⟩

/-! ### Claim C3: the immediately-invoked function literal wrapper -/

/-- C3: when the top-level build created at least one binding, the returned
node is an immediately-invoked function literal — a call whose callee is the
parenthesised function literal with exactly one parameter per binding
(name and type, in creation order), whose body is the single return of the
originally built expression tree, and whose argument list is the bindings'
value expressions in the same order; with no bindings the bare tree is
returned unwrapped. -/
theorem c3_iife_wrapping (v : Value) (n : Expr) (vars : Scope)
    (hb : buildInner v [] = .ok (n, vars)) :
    (vars = [] → build v = .ok n) ∧
    (vars ≠ [] → ∀ node, build v = .ok node →
      ∃ t, buildType (tyOf v) = .ok t ∧
        node = .call
          (.paren (.funcLit (vars.map fun bv => ([bv.name], bv.typ)) [([], t)] [n]))
          (vars.map (·.expr))) := by
  constructor
  · intro hnil
    rw [build, hb, hnil]
    rfl
  · intro hne node hnode
    cases hbt : buildType (tyOf v) with
    | error er =>
      have hb2 : build v = .error er := by
        rw [build, hb]
        simp [hne, hbt]
      rw [hb2] at hnode
      exact absurd hnode (by simp)
    | ok t =>
      have hb2 : build v = .ok (.call
          (.paren (.funcLit (vars.map fun bv => ([bv.name], bv.typ)) [([], t)] [n]))
          (vars.map (·.expr))) := by
        rw [build, hb]
        simp [hne, hbt]
      rw [hb2] at hnode
      refine ⟨t, rfl, ?_⟩
      simpa using hnode.symm

/-- C3 witness: building a pointer to the int literal 42 creates one binding
`x0`, and the theorem produces the invoked function literal
`(func(x0 int) *int { return &x0 })(42)` for it; a bare int build creates no
binding and is returned unwrapped. -/
theorem c3_iife_wrapping_witness :
    (∃ t, buildType (tyOf (Value.ptrV Ty.int (some (Value.intV 42)))) = .ok t ∧
      Expr.call (.paren (.funcLit [(["x0"], Expr.ident "int")]
          [([], .star (.ident "int"))] [.addrOf (.ident "x0")])) [.basicLit .int "42"] =
        .call (.paren (.funcLit
            (List.map (fun bv => ([bv.name], bv.typ))
              [(⟨"x0", .ident "int", .basicLit .int "42"⟩ : BuilderVar)])
            [([], t)] [.addrOf (.ident "x0")]))
          (List.map (fun bv => bv.expr)
            [(⟨"x0", .ident "int", .basicLit .int "42"⟩ : BuilderVar)])) ∧
    build (.intV 7) = .ok (.basicLit .int "7") :=
  ⟨(c3_iife_wrapping (.ptrV .int (some (.intV 42))) (.addrOf (.ident "x0"))
      [⟨"x0", .ident "int", .basicLit .int "42"⟩] rfl).2 (by simp)
      (.call (.paren (.funcLit [(["x0"], .ident "int")] [([], .star (.ident "int"))]
        [.addrOf (.ident "x0")])) [.basicLit .int "42"]) rfl,
   (c3_iife_wrapping (.intV 7) (.basicLit .int "7") [] rfl).1 rfl⟩

/-! ### String quoting: byte lengths -/

theorem utf8Size_one_of_ascii (c : Char) (h : c.toNat < 0x80) : c.utf8Size = 1 := by
  rw [Char.utf8Size]
  have hv : c.val ≤ 0x7F := by
    rw [UInt32.le_def, BitVec.le_def]
    have hc : c.val.toBitVec.toNat = c.toNat := rfl
    rw [hc]
    exact Nat.le_of_lt_succ (by simpa using h)
  simp [hv]

theorem utf8Size_le_three_of_bmp (c : Char) (h : c.toNat < 0x10000) : c.utf8Size ≤ 3 := by
  rw [Char.utf8Size]
  have hv : c.val ≤ 0xFFFF := by
    rw [UInt32.le_def, BitVec.le_def]
    have hc : c.val.toBitVec.toNat = c.toNat := rfl
    rw [hc]
    exact Nat.le_of_lt_succ (by simpa using h)
  by_cases h1 : c.val ≤ 0x7F <;> by_cases h2 : c.val ≤ 0x7FF <;> simp [h1, h2, hv]

theorem utf8Len_append (a b : List Char) : utf8Len (a ++ b) = utf8Len a + utf8Len b := by
  rw [utf8Len, utf8Len, utf8Len, List.map_append, List.sum_append]

theorem hexDigit_utf8Size (m : Nat) (h : m < 16) : (hexDigit m).utf8Size = 1 := by
  interval_cases m <;> decide

theorem goQuoteChar_len (c : Char) :
    c.utf8Size ≤ utf8Len (goQuoteChar c) ∧
    (utf8Len (goQuoteChar c) = c.utf8Size ↔
      (goIsPrint c = true ∧ c ≠ '"' ∧ c ≠ '\\')) := by
  rw [goQuoteChar]
  by_cases hq : (c = '"' || c = '\\') = true
  · rw [if_pos hq]
    rcases Bool.or_eq_true_iff.mp hq with h | h <;> rw [of_decide_eq_true h] <;> decide
  · rw [if_neg hq]
    simp only [Bool.or_eq_true, decide_eq_true_eq, not_or] at hq
    by_cases hp : goIsPrint c = true
    · rw [if_pos hp]
      refine ⟨by simp [utf8Len], ?_⟩
      simp [utf8Len, hp, hq.1, hq.2]
    · rw [if_neg hp]
      have hnp : ¬ (goIsPrint c = true ∧ c ≠ '"' ∧ c ≠ '\\') := fun hc => hp hc.1
      by_cases h7 : c = Char.ofNat 7
      · subst h7; decide
      rw [if_neg h7]
      by_cases h8 : c = Char.ofNat 8
      · subst h8; decide
      rw [if_neg h8]
      by_cases h12 : c = Char.ofNat 12
      · subst h12; decide
      rw [if_neg h12]
      by_cases h10 : c = '\n'
      · subst h10; decide
      rw [if_neg h10]
      by_cases h13 : c = crChar
      · subst h13; decide
      rw [if_neg h13]
      by_cases h9 : c = '\t'
      · subst h9; decide
      rw [if_neg h9]
      by_cases h11 : c = Char.ofNat 11
      · subst h11; decide
      rw [if_neg h11]
      by_cases hx : c.toNat < 0x80
      · rw [if_pos hx]
        have hsz := utf8Size_one_of_ascii c hx
        have d1 := hexDigit_utf8Size (c.toNat / 16 % 16) (Nat.mod_lt _ (by norm_num))
        have d2 := hexDigit_utf8Size (c.toNat % 16) (Nat.mod_lt _ (by norm_num))
        have hlen : utf8Len ('\\' :: 'x' :: hex2 c.toNat) = 4 := by
          rw [hex2, utf8Len]
          simp only [List.map_cons, List.map_nil, List.sum_cons, List.sum_nil, d1, d2]
          decide
        rw [hlen, hsz]
        refine ⟨by omega, ⟨fun hh => by omega, fun hh => absurd hh hnp⟩⟩
      rw [if_neg hx]
      by_cases hu : c.toNat < 0x10000
      · rw [if_pos hu]
        have hsz := utf8Size_le_three_of_bmp c hu
        have d1 := hexDigit_utf8Size (c.toNat / 4096 % 16) (Nat.mod_lt _ (by norm_num))
        have d2 := hexDigit_utf8Size (c.toNat / 256 % 16) (Nat.mod_lt _ (by norm_num))
        have d3 := hexDigit_utf8Size (c.toNat / 16 % 16) (Nat.mod_lt _ (by norm_num))
        have d4 := hexDigit_utf8Size (c.toNat % 16) (Nat.mod_lt _ (by norm_num))
        have hlen : utf8Len ('\\' :: 'u' :: hex4 c.toNat) = 6 := by
          rw [hex4, utf8Len]
          simp only [List.map_cons, List.map_nil, List.sum_cons, List.sum_nil, d1, d2, d3, d4]
          decide
        rw [hlen]
        refine ⟨by omega, ⟨fun hh => by omega, fun hh => absurd hh hnp⟩⟩
      rw [if_neg hu]
      have hsz := Char.utf8Size_le_four c
      have d1 := hexDigit_utf8Size (c.toNat / 65536 / 4096 % 16) (Nat.mod_lt _ (by norm_num))
      have d2 := hexDigit_utf8Size (c.toNat / 65536 / 256 % 16) (Nat.mod_lt _ (by norm_num))
      have d3 := hexDigit_utf8Size (c.toNat / 65536 / 16 % 16) (Nat.mod_lt _ (by norm_num))
      have d4 := hexDigit_utf8Size (c.toNat / 65536 % 16) (Nat.mod_lt _ (by norm_num))
      have d5 := hexDigit_utf8Size (c.toNat % 65536 / 4096 % 16) (Nat.mod_lt _ (by norm_num))
      have d6 := hexDigit_utf8Size (c.toNat % 65536 / 256 % 16) (Nat.mod_lt _ (by norm_num))
      have d7 := hexDigit_utf8Size (c.toNat % 65536 / 16 % 16) (Nat.mod_lt _ (by norm_num))
      have d8 := hexDigit_utf8Size (c.toNat % 65536 % 16) (Nat.mod_lt _ (by norm_num))
      have hlen : utf8Len ('\\' :: 'U' :: hex8 c.toNat) = 10 := by
        rw [hex8, hex4, hex4, utf8Len]
        simp only [List.cons_append, List.nil_append, List.map_cons, List.map_nil,
          List.sum_cons, List.sum_nil, d1, d2, d3, d4, d5, d6, d7, d8]
        decide
      rw [hlen]
      refine ⟨by omega, ⟨fun hh => by omega, fun hh => absurd hh hnp⟩⟩

theorem utf8Len_quoted_body : ∀ s : List Char,
    utf8Len s ≤ utf8Len (s.map goQuoteChar).flatten ∧
    (utf8Len (s.map goQuoteChar).flatten = utf8Len s ↔
      s.all (fun c => goIsPrint c && (c != '"') && (c != '\\')) = true) := by
  intro s
  induction s with
  | nil => simp [utf8Len]
  | cons c cs ih =>
    rw [List.map_cons, List.flatten_cons, utf8Len_append]
    have hc := goQuoteChar_len c
    have hlen : utf8Len (c :: cs) = c.utf8Size + utf8Len cs := by
      rw [utf8Len, utf8Len, List.map_cons, List.sum_cons]
    rw [hlen]
    constructor
    · omega
    · rw [List.all_cons, Bool.and_eq_true]
      constructor
      · intro h
        have h1 : utf8Len (goQuoteChar c) = c.utf8Size := by omega
        have h2 : utf8Len (cs.map goQuoteChar).flatten = utf8Len cs := by omega
        obtain ⟨hp, hq, hb⟩ := hc.2.mp h1
        refine ⟨?_, ih.2.mp h2⟩
        simp [hp, hq, hb]
      · intro ⟨h1, h2⟩
        simp only [Bool.and_eq_true, bne_iff_ne] at h1
        have := hc.2.mpr ⟨h1.1.1, h1.1.2, h1.2⟩
        have := ih.2.mpr h2
        omega

theorem quote_len_check (s : List Char) :
    (utf8Len (goQuote s) = utf8Len s + 2) ↔
      s.all (fun c => goIsPrint c && (c != '"') && (c != '\\')) = true := by
  rw [goQuote]
  have h1 : utf8Len ('"' :: (s.map goQuoteChar).flatten ++ ['"']) =
      utf8Len (s.map goQuoteChar).flatten + 2 := by
    have e1 : ('"' :: ((s.map goQuoteChar).flatten ++ ['"'])) =
        ['"'] ++ ((s.map goQuoteChar).flatten ++ ['"']) := rfl
    rw [List.cons_append, e1, utf8Len_append, utf8Len_append]
    have e2 : utf8Len ['"'] = 1 := by decide
    omega
  rw [h1]
  have h2 := utf8Len_quoted_body s
  constructor
  · intro h
    exact h2.2.mp (by omega)
  · intro h
    have := h2.2.mpr h
    omega

/-! ### Claim C10: the back-tick guard on raw string selection -/

/-- C10: a string containing both a double-quote and a back-tick always
builds to the escaped double-quoted literal — the raw back-tick-delimited
form is produced only when the text contains no back-tick (the built literal
text starts with a back-tick only in that case). -/
theorem c10_backtick_guard (s : List Char) (st : Scope) :
    (s.contains '"' = true → s.contains bq = true →
      buildInner (.stringV s) st = .ok (.basicLit .str (String.mk (goQuote s)), st)) ∧
    (goQuote s).head? = some '"' ∧
    (∀ (q : String) (st' : Scope),
      buildInner (.stringV s) st = .ok (.basicLit .str q, st') →
      q.data.head? = some bq → s.contains bq = false) := by
  refine ⟨?_, rfl, ?_⟩
  · intro h1 h2
    rw [buildInner, h1, h2]
    rfl
  · intro q st' hb hhead
    rw [buildInner] at hb
    by_cases h2 : s.contains bq = true
    · by_cases h1 : s.contains '"' = true
      · rw [h1, h2] at hb
        simp only [Bool.not_true, Bool.and_false, Bool.false_eq_true, if_false,
          Except.ok.injEq, Expr.basicLit.injEq, Prod.mk.injEq] at hb
        exfalso
        have hq : q = String.mk (goQuote s) := hb.1.2.symm
        rw [hq] at hhead
        have hh : (goQuote s).head? = some '"' := rfl
        rw [show (String.mk (goQuote s)).data = goQuote s from rfl, hh] at hhead
        exact absurd (Option.some.injEq .. ▸ hhead) (by decide)
      · rw [Bool.not_eq_true] at h1
        rw [h1] at hb
        simp only [Bool.false_and, Bool.false_eq_true, if_false, Except.ok.injEq,
          Expr.basicLit.injEq, Prod.mk.injEq] at hb
        exfalso
        have hq : q = String.mk (goQuote s) := hb.1.2.symm
        rw [hq] at hhead
        have hh : (goQuote s).head? = some '"' := rfl
        rw [show (String.mk (goQuote s)).data = goQuote s from rfl, hh] at hhead
        exact absurd (Option.some.injEq .. ▸ hhead) (by decide)
    · exact Bool.not_eq_true _ ▸ h2

/-- C10 witness: the text consisting of a double-quote followed by a
back-tick builds to the escaped double-quoted literal `"\"`"`, which starts
with a double-quote, not a back-tick. -/
theorem c10_backtick_guard_witness :
    buildInner (.stringV ['"', bq]) [] =
      .ok (.basicLit .str (String.mk (goQuote ['"', bq])), []) ∧
    String.mk (goQuote ['"', bq]) = "\"\\\"`\"" :=
  ⟨(c10_backtick_guard ['"', bq] []).1 (by decide) (by decide), rfl⟩

/-! ### Claim C8: raw-form selection and the decoded value -/

/-- C8 counterexample: the two-character text `"` + back-tick contains a
double-quote and, once quotes are stripped, no character requiring escape
(the back-tick is printable), so the claim as stated selects the raw form;
the code instead produces the escaped double-quoted literal `"\"`"` because
of the back-tick guard the claim omits. -/
theorem c8_counterexample :
    (['"', bq].contains '"' = true) ∧
    ((['"', bq].filter (fun c => c ≠ '"')).all
      (fun c => goIsPrint c && (c != '"') && (c != '\\')) = true) ∧
    buildInner (.stringV ['"', bq]) [] = .ok (.basicLit .str "\"\\\"`\"", []) ∧
    "\"\\\"`\"".data.head? ≠ some bq :=
  ⟨by decide, by decide, rfl, by decide⟩

theorem hexVal_hexDigit (d : Nat) (h : d < 16) : hexVal (hexDigit d) = some d := by
  interval_cases d <;> decide

theorem unq_quoteChar (c : Char) (rest : List Char) :
    unqBody (goQuoteChar c ++ rest) = (unqBody rest).map (c :: ·) := by
  rw [goQuoteChar]
  by_cases hq : (c = '"' || c = '\\') = true
  · rw [if_pos hq]
    rcases Bool.or_eq_true_iff.mp hq with h | h <;> rw [of_decide_eq_true h] <;> rfl
  · rw [if_neg hq]
    simp only [Bool.or_eq_true, decide_eq_true_eq, not_or] at hq
    by_cases hp : goIsPrint c = true
    · rw [if_pos hp]
      rw [List.cons_append, List.nil_append, unqBody]
      simp [hq.1, hq.2]
    · rw [if_neg hp]
      by_cases h7 : c = Char.ofNat 7
      · subst h7; rfl
      rw [if_neg h7]
      by_cases h8 : c = Char.ofNat 8
      · subst h8; rfl
      rw [if_neg h8]
      by_cases h12 : c = Char.ofNat 12
      · subst h12; rfl
      rw [if_neg h12]
      by_cases h10 : c = '\n'
      · subst h10; rfl
      rw [if_neg h10]
      by_cases h13 : c = crChar
      · subst h13; rfl
      rw [if_neg h13]
      by_cases h9 : c = '\t'
      · subst h9; rfl
      rw [if_neg h9]
      by_cases h11 : c = Char.ofNat 11
      · subst h11; rfl
      rw [if_neg h11]
      by_cases hx : c.toNat < 0x80
      · rw [if_pos hx]
        have d1 := hexVal_hexDigit (c.toNat / 16 % 16) (Nat.mod_lt _ (by norm_num))
        have d2 := hexVal_hexDigit (c.toNat % 16) (Nat.mod_lt _ (by norm_num))
        have hred : unqBody (('\\' :: 'x' :: hex2 c.toNat) ++ rest) =
            unqHex2 (hexDigit (c.toNat / 16 % 16) :: hexDigit (c.toNat % 16) :: rest) := by
          rw [hex2]
          rfl
        rw [hred, unqHex2, d1, d2]
        show (unqBody rest).map
          (Char.ofNat (16 * (c.toNat / 16 % 16) + c.toNat % 16) :: ·) = _
        have harith : 16 * (c.toNat / 16 % 16) + c.toNat % 16 = c.toNat := by omega
        rw [harith, Char.ofNat_toNat]
      rw [if_neg hx]
      by_cases hu : c.toNat < 0x10000
      · rw [if_pos hu]
        have hv4 : hexVal4 (hexDigit (c.toNat / 4096 % 16)) (hexDigit (c.toNat / 256 % 16))
            (hexDigit (c.toNat / 16 % 16)) (hexDigit (c.toNat % 16)) = some c.toNat := by
          rw [hexVal4, hexVal_hexDigit (c.toNat / 4096 % 16) (Nat.mod_lt _ (by norm_num)),
            hexVal_hexDigit (c.toNat / 256 % 16) (Nat.mod_lt _ (by norm_num)),
            hexVal_hexDigit (c.toNat / 16 % 16) (Nat.mod_lt _ (by norm_num)),
            hexVal_hexDigit (c.toNat % 16) (Nat.mod_lt _ (by norm_num))]
          show some (4096 * (c.toNat / 4096 % 16) + 256 * (c.toNat / 256 % 16) +
            16 * (c.toNat / 16 % 16) + c.toNat % 16) = some c.toNat
          congr 1
          omega
        have hred : unqBody (('\\' :: 'u' :: hex4 c.toNat) ++ rest) =
            (match hexVal4 (hexDigit (c.toNat / 4096 % 16)) (hexDigit (c.toNat / 256 % 16))
              (hexDigit (c.toNat / 16 % 16)) (hexDigit (c.toNat % 16)) with
            | some n => (unqBody rest).map (Char.ofNat n :: ·)
            | none => none) := by
          rw [hex4]
          rfl
        rw [hred, hv4]
        show (unqBody rest).map (Char.ofNat c.toNat :: ·) = _
        rw [Char.ofNat_toNat]
      rw [if_neg hu]
      have hlt : c.toNat < 4294967296 := by
        have hbv := c.val.toBitVec.isLt
        have hval : c.val.toBitVec.toNat = c.toNat := rfl
        omega
      have hv4a : hexVal4 (hexDigit (c.toNat / 65536 / 4096 % 16))
          (hexDigit (c.toNat / 65536 / 256 % 16)) (hexDigit (c.toNat / 65536 / 16 % 16))
          (hexDigit (c.toNat / 65536 % 16)) = some (c.toNat / 65536) := by
        rw [hexVal4, hexVal_hexDigit (c.toNat / 65536 / 4096 % 16) (Nat.mod_lt _ (by norm_num)),
          hexVal_hexDigit (c.toNat / 65536 / 256 % 16) (Nat.mod_lt _ (by norm_num)),
          hexVal_hexDigit (c.toNat / 65536 / 16 % 16) (Nat.mod_lt _ (by norm_num)),
          hexVal_hexDigit (c.toNat / 65536 % 16) (Nat.mod_lt _ (by norm_num))]
        show some (4096 * (c.toNat / 65536 / 4096 % 16) + 256 * (c.toNat / 65536 / 256 % 16) +
          16 * (c.toNat / 65536 / 16 % 16) + c.toNat / 65536 % 16) = some (c.toNat / 65536)
        congr 1
        have hm : c.toNat / 65536 < 65536 := by omega
        omega
      have hv4b : hexVal4 (hexDigit (c.toNat % 65536 / 4096 % 16))
          (hexDigit (c.toNat % 65536 / 256 % 16)) (hexDigit (c.toNat % 65536 / 16 % 16))
          (hexDigit (c.toNat % 65536 % 16)) = some (c.toNat % 65536) := by
        rw [hexVal4, hexVal_hexDigit (c.toNat % 65536 / 4096 % 16) (Nat.mod_lt _ (by norm_num)),
          hexVal_hexDigit (c.toNat % 65536 / 256 % 16) (Nat.mod_lt _ (by norm_num)),
          hexVal_hexDigit (c.toNat % 65536 / 16 % 16) (Nat.mod_lt _ (by norm_num)),
          hexVal_hexDigit (c.toNat % 65536 % 16) (Nat.mod_lt _ (by norm_num))]
        show some (4096 * (c.toNat % 65536 / 4096 % 16) + 256 * (c.toNat % 65536 / 256 % 16) +
          16 * (c.toNat % 65536 / 16 % 16) + c.toNat % 65536 % 16) = some (c.toNat % 65536)
        congr 1
        omega
      have hred : unqBody (('\\' :: 'U' :: hex8 c.toNat) ++ rest) =
          (match hexVal4 (hexDigit (c.toNat / 65536 / 4096 % 16))
              (hexDigit (c.toNat / 65536 / 256 % 16)) (hexDigit (c.toNat / 65536 / 16 % 16))
              (hexDigit (c.toNat / 65536 % 16)),
            hexVal4 (hexDigit (c.toNat % 65536 / 4096 % 16))
              (hexDigit (c.toNat % 65536 / 256 % 16)) (hexDigit (c.toNat % 65536 / 16 % 16))
              (hexDigit (c.toNat % 65536 % 16)) with
          | some n1, some n2 => (unqBody rest).map (Char.ofNat (65536 * n1 + n2) :: ·)
          | _, _ => none) := by
        rw [hex8, hex4, hex4]
        rfl
      rw [hred, hv4a, hv4b]
      show (unqBody rest).map (Char.ofNat (65536 * (c.toNat / 65536) + c.toNat % 65536) :: ·) = _
      have harith : 65536 * (c.toNat / 65536) + c.toNat % 65536 = c.toNat := by omega
      rw [harith, Char.ofNat_toNat]


theorem unq_goQuote_body : ∀ s : List Char,
    unqBody ((s.map goQuoteChar).flatten ++ ['"']) = some s := by
  intro s
  induction s with
  | nil => rfl
  | cons c cs ih =>
    rw [List.map_cons, List.flatten_cons, List.append_assoc, unq_quoteChar, ih]
    rfl

theorem decode_goQuote (s : List Char) : decodeLit (goQuote s) = some s := by
  have h : decodeLit (goQuote s) = unqBody ((s.map goQuoteChar).flatten ++ ['"']) := rfl
  rw [h]
  exact unq_goQuote_body s

theorem decode_raw (s : List Char) (hbq : bq ∉ s) (hcr : crChar ∉ s) :
    decodeLit (bq :: (s ++ [bq])) = some s := by
  have h : decodeLit (bq :: (s ++ [bq])) =
      (if (s ++ [bq]).getLast? = some bq ∧ ¬ (s ++ [bq]).dropLast.contains bq then
        some ((s ++ [bq]).dropLast.filter (· ≠ crChar)) else none) := rfl
  rw [h, if_pos]
  · rw [List.dropLast_concat]
    rw [List.filter_eq_self.mpr]
    intro a ha
    simp only [ne_eq, decide_eq_true_eq]
    intro hc
    exact hcr (hc ▸ ha)
  · refine ⟨by rw [List.getLast?_concat], ?_⟩
    rw [List.dropLast_concat]
    intro hc
    exact hbq (by simpa using hc)

/-- C8 (amended): a string builds to the double-quoted literal with standard
escaping by default; the raw back-tick-delimited form is selected exactly
when the text contains a double-quote, contains no back-tick, and its
quote-stripped text contains no character requiring escape; text containing
a newline always gets the escaped double-quoted form; and in every case the
decoded value of the chosen literal equals the original string. -/
theorem c8_amended (s : List Char) (st : Scope) :
    ((s.contains '"' = true ∧ s.contains bq = false ∧
        (s.filter (fun c => c ≠ '"')).all
          (fun c => goIsPrint c && (c != '"') && (c != '\\')) = true) →
      buildInner (.stringV s) st =
        .ok (.basicLit .str (String.mk (bq :: (s ++ [bq]))), st)) ∧
    ((¬ (s.contains '"' = true ∧ s.contains bq = false ∧
        (s.filter (fun c => c ≠ '"')).all
          (fun c => goIsPrint c && (c != '"') && (c != '\\')) = true)) →
      buildInner (.stringV s) st = .ok (.basicLit .str (String.mk (goQuote s)), st)) ∧
    ('\n' ∈ s →
      buildInner (.stringV s) st = .ok (.basicLit .str (String.mk (goQuote s)), st)) ∧
    (∀ (q : String) (st' : Scope),
      buildInner (.stringV s) st = .ok (.basicLit .str q, st') →
      decodeLit q.data = some s) := by
  have hquoted : ∀ hc : (s.contains '"' && !(s.contains bq)) = false,
      buildInner (.stringV s) st = .ok (.basicLit .str (String.mk (goQuote s)), st) := by
    intro hc
    rw [buildInner, hc]
    rfl
  have hraws : ∀ (hc : (s.contains '"' && !(s.contains bq)) = true)
      (hl : utf8Len (goQuote (s.filter (fun c => c ≠ '"'))) =
        utf8Len (s.filter (fun c => c ≠ '"')) + 2),
      buildInner (.stringV s) st =
        .ok (.basicLit .str (String.mk (bq :: (s ++ [bq]))), st) := by
    intro hc hl
    rw [buildInner, hc]
    simp only [if_true]
    rw [if_pos hl]
  have hquoted2 : ∀ (hc : (s.contains '"' && !(s.contains bq)) = true)
      (hl : ¬ utf8Len (goQuote (s.filter (fun c => c ≠ '"'))) =
        utf8Len (s.filter (fun c => c ≠ '"')) + 2),
      buildInner (.stringV s) st = .ok (.basicLit .str (String.mk (goQuote s)), st) := by
    intro hc hl
    rw [buildInner, hc]
    simp only [if_true]
    rw [if_neg hl]
  refine ⟨?_, ?_, ?_, ?_⟩
  · rintro ⟨h1, h2, h3⟩
    exact hraws (by rw [h1, h2]; rfl) ((quote_len_check _).mpr h3)
  · intro hn
    by_cases h1 : s.contains '"' = true
    · by_cases h2 : s.contains bq = true
      · exact hquoted (by rw [h1, h2]; rfl)
      · have h2f : s.contains bq = false := by simpa using h2
        have h3 : ¬ (s.filter (fun c => c ≠ '"')).all
            (fun c => goIsPrint c && (c != '"') && (c != '\\')) = true := by
          intro h3
          exact hn ⟨h1, h2f, h3⟩
        exact hquoted2 (by rw [h1, h2f]; rfl)
          (fun hl => h3 ((quote_len_check _).mp hl))
    · have h1f : s.contains '"' = false := by simpa using h1
      exact hquoted (by rw [h1f]; rfl)
  · intro hnl
    have hmem : '\n' ∈ s.filter (fun c => c ≠ '"') :=
      List.mem_filter.mpr ⟨hnl, by decide⟩
    have h3 : ¬ (s.filter (fun c => c ≠ '"')).all
        (fun c => goIsPrint c && (c != '"') && (c != '\\')) = true := by
      intro h3
      have := List.all_eq_true.mp h3 _ hmem
      rw [Bool.and_eq_true, Bool.and_eq_true] at this
      exact absurd this.1.1 (by decide)
    by_cases hc : (s.contains '"' && !(s.contains bq)) = true
    · exact hquoted2 hc (fun hl => h3 ((quote_len_check _).mp hl))
    · exact hquoted (by simpa using hc)
  · intro q st' hb
    by_cases hc : (s.contains '"' && !(s.contains bq)) = true
    · by_cases hl : utf8Len (goQuote (s.filter (fun c => c ≠ '"'))) =
          utf8Len (s.filter (fun c => c ≠ '"')) + 2
      · rw [hraws hc hl] at hb
        simp only [Except.ok.injEq, Expr.basicLit.injEq, Prod.mk.injEq] at hb
        rw [← hb.1.2]
        have hbq : bq ∉ s := by
          rw [Bool.and_eq_true] at hc
          obtain ⟨hc1, hc2⟩ := hc
          intro hmem
          have hm2 : s.contains bq = true := by simpa using hmem
          rw [hm2] at hc2
          exact absurd hc2 (by decide)
        have hcr : crChar ∉ s := by
          intro hmem
          have hall := (quote_len_check _).mp hl
          have hmem2 : crChar ∈ s.filter (fun c => c ≠ '"') :=
            List.mem_filter.mpr ⟨hmem, by decide⟩
          have := List.all_eq_true.mp hall _ hmem2
          rw [Bool.and_eq_true, Bool.and_eq_true] at this
          exact absurd this.1.1 (by decide)
        exact decode_raw s hbq hcr
      · rw [hquoted2 hc hl] at hb
        simp only [Except.ok.injEq, Expr.basicLit.injEq, Prod.mk.injEq] at hb
        rw [← hb.1.2]
        exact decode_goQuote s
    · rw [hquoted (by simpa using hc)] at hb
      simp only [Except.ok.injEq, Expr.basicLit.injEq, Prod.mk.injEq] at hb
      rw [← hb.1.2]
      exact decode_goQuote s

/-- C8 witness: the text `a"` selects the raw form (it has a double-quote,
no back-tick, and no character requiring escape once quotes are stripped)
and decodes back to itself, while the text consisting of a single newline
selects the escaped double-quoted form. -/
theorem c8_amended_witness :
    buildInner (.stringV ['a', '"']) [] =
      .ok (.basicLit .str (String.mk (bq :: (['a', '"'] ++ [bq]))), []) ∧
    decodeLit (String.mk (bq :: (['a', '"'] ++ [bq]))).data = some ['a', '"'] ∧
    buildInner (.stringV ['\n']) [] =
      .ok (.basicLit .str (String.mk (goQuote ['\n'])), []) := by
  have h1 := (c8_amended ['a', '"'] []).1 ⟨by decide, by decide, by decide⟩
  refine ⟨h1, ?_, (c8_amended ['\n'] []).2.2.1 (by decide)⟩
  exact (c8_amended ['a', '"'] []).2.2.2 _ _ h1

/-! ### Claim C9: record fields, zero-value elision -/

theorem buildFieldList_zero : ∀ (fields : List (String × Value)) (st : Scope),
    isZeroFields fields = true → buildFieldList fields st = .ok ([], st) := by
  intro fields
  induction fields with
  | nil => intro st _; rfl
  | cons f rest ih =>
    intro st hz
    obtain ⟨n, v⟩ := f
    rw [isZeroFields, Bool.and_eq_true] at hz
    rw [buildFieldList, if_pos hz.1]
    exact ih st hz.2

theorem buildFieldList_keys : ∀ (fields : List (String × Value)) (st : Scope)
    (elts : List Expr) (st' : Scope), buildFieldList fields st = .ok (elts, st') →
    List.Forall₂ (fun (f : String × Value) el => ∃ w, el = .kv (.ident f.1) w)
      (fields.filter (fun f => !isZero f.2)) elts := by
  intro fields
  induction fields with
  | nil =>
    intro st elts st' h
    rw [buildFieldList] at h
    simp only [Except.ok.injEq, Prod.mk.injEq] at h
    rw [← h.1]
    exact List.Forall₂.nil
  | cons f rest ih =>
    intro st elts st' h
    obtain ⟨n, v⟩ := f
    rw [buildFieldList] at h
    by_cases hz : isZero v
    · rw [if_pos hz] at h
      rw [List.filter_cons_of_neg (by simp [hz])]
      exact ih st elts st' h
    · rw [if_neg hz] at h
      rw [List.filter_cons_of_pos (by simp [hz])]
      cases hbi : buildInner v st with
      | error er => rw [hbi] at h; exact absurd h (by simp)
      | ok p =>
        obtain ⟨w, st1⟩ := p
        rw [hbi] at h
        dsimp only [] at h
        cases hbf : buildFieldList rest st1 with
        | error er => rw [hbf] at h; exact absurd h (by simp)
        | ok p2 =>
          obtain ⟨ws, st2⟩ := p2
          rw [hbf] at h
          simp only [Except.ok.injEq, Prod.mk.injEq] at h
          rw [← h.1]
          exact List.Forall₂.cons ⟨w, rfl⟩ (ih st1 ws st2 hbf)

/-- C9: a record builds to a composite literal containing one `KeyValue`
element per field whose value is not the zero value of its type, keyed by
the field name, in field declaration order (the elements correspond
one-to-one, in order, to the non-zero fields); fields equal to their zero
value are skipped, and a record whose every field is zero builds to a
composite literal with an empty element list. -/
theorem c9_record_elision (name : String) (fields : List (String × Value)) (st : Scope) :
    (∀ (ex : Expr) (st' : Scope), buildInner (.structV name fields) st = .ok (ex, st') →
      ∃ te elts, ex = .composite te elts ∧
        List.Forall₂ (fun (f : String × Value) el => ∃ w, el = .kv (.ident f.1) w)
          (fields.filter (fun f => !isZero f.2)) elts) ∧
    (isZeroFields fields = true →
      ∀ te, buildType (tyOf (.structV name fields)) = .ok te →
        buildInner (.structV name fields) st = .ok (.composite te [], st)) := by
  constructor
  · intro ex st' h
    rw [buildInner] at h
    cases hbf : buildFieldList fields st with
    | error er => rw [hbf] at h; exact absurd h (by simp)
    | ok p =>
      obtain ⟨elts, st1⟩ := p
      rw [hbf] at h
      dsimp only [] at h
      cases hbt : buildType (tyOf (.structV name fields)) with
      | error er =>
        rw [hbt] at h
        exact absurd h (by simp)
      | ok te =>
        rw [hbt] at h
        simp only [Except.ok.injEq, Prod.mk.injEq] at h
        exact ⟨te, elts, h.1.symm, buildFieldList_keys fields st elts st1 hbf⟩
  · intro hz te hbt
    rw [buildInner, buildFieldList_zero fields st hz]
    dsimp only []
    rw [hbt]

/-- C9 witness: a record with one non-zero string field and one nil pointer
field builds to a composite keyed by the non-zero field's name only, and an
all-zero two-field record builds to a composite with an empty element
list. -/
theorem c9_record_elision_witness :
    (∃ te elts, Expr.composite (.ident "x") [.kv (.ident "name") (.basicLit .str "\"foo\"")] =
        .composite te elts ∧
      List.Forall₂ (fun (f : String × Value) el => ∃ w, el = .kv (.ident f.1) w)
        (([("name", .stringV ['f', 'o', 'o']), ("ptr", .ptrV .int none)] :
            List (String × Value)).filter (fun f => !isZero f.2)) elts) ∧
    buildInner (.structV "y" [("a", .intV 0), ("b", .stringV [])]) [] =
      .ok (.composite (.ident "y") [], []) := by
  constructor
  · exact (c9_record_elision "x" [("name", .stringV ['f', 'o', 'o']), ("ptr", .ptrV .int none)]
      []).1 _ [] rfl
  · exact (c9_record_elision "y" [("a", .intV 0), ("b", .stringV [])] []).2 (by decide)
      (.ident "y") rfl

/-! ### Claim C5: unsupported kinds fail fast -/

theorem buildType_error_char : ∀ n : Nat,
    (∀ (t : Ty) (e : Err), sizeOf t ≤ n → buildType t = .error e →
      ∃ u, e = .unexpectedType u ∧ (u = .func ∨ u = .chan_)) ∧
    (∀ (fs : List (String × Ty)) (e : Err), sizeOf fs ≤ n → buildTypeFields fs = .error e →
      ∃ u, e = .unexpectedType u ∧ (u = .func ∨ u = .chan_)) := by
  intro n
  induction n using Nat.strong_induction_on with
  | _ n ih =>
    constructor
    · intro t e hs herr
      cases t <;> (try (rw [buildType] at herr; simp at herr; done)) <;>
        rw [buildType] at herr <;> simp at hs
      next elem =>
        cases hbt : buildType elem with
        | error er =>
          rw [hbt] at herr
          dsimp only [] at herr
          injection herr with h
          exact (ih _ (by omega)).1 elem e le_rfl (h ▸ hbt)
        | ok te => rw [hbt] at herr; exact absurd herr (by simp)
      next elem =>
        cases hbt : buildType elem with
        | error er =>
          rw [hbt] at herr
          dsimp only [] at herr
          injection herr with h
          exact (ih _ (by omega)).1 elem e le_rfl (h ▸ hbt)
        | ok te => rw [hbt] at herr; exact absurd herr (by simp)
      next k v =>
        cases hbk : buildType k with
        | error er =>
          rw [hbk] at herr
          dsimp only [] at herr
          injection herr with h
          exact (ih _ (by omega)).1 k e le_rfl (h ▸ hbk)
        | ok ke =>
          rw [hbk] at herr
          dsimp only [] at herr
          cases hbv : buildType v with
          | error er =>
            rw [hbv] at herr
            dsimp only [] at herr
            injection herr with h
            exact (ih _ (by omega)).1 v e le_rfl (h ▸ hbv)
          | ok ve => rw [hbv] at herr; exact absurd herr (by simp)
      next name fields =>
        by_cases hn : name ≠ ""
        · rw [if_pos hn] at herr
          exact absurd herr (by simp)
        · rw [if_neg hn] at herr
          cases hbf : buildTypeFields fields with
          | error er =>
            rw [hbf] at herr
            dsimp only [] at herr
            injection herr with h
            exact (ih _ (by omega)).2 fields e le_rfl (h ▸ hbf)
          | ok gs => rw [hbf] at herr; exact absurd herr (by simp [Except.error.injEq])
      next elem =>
        cases hbt : buildType elem with
        | error er =>
          rw [hbt] at herr
          dsimp only [] at herr
          injection herr with h
          exact (ih _ (by omega)).1 elem e le_rfl (h ▸ hbt)
        | ok te => rw [hbt] at herr; exact absurd herr (by simp)
      next =>
        injection herr with h
        exact ⟨.func, h.symm, Or.inl rfl⟩
      next =>
        injection herr with h
        exact ⟨.chan_, h.symm, Or.inr rfl⟩
    · intro fs e hs herr
      cases fs with
      | nil => rw [buildTypeFields] at herr; exact absurd herr (by simp)
      | cons f rest =>
        obtain ⟨nm, t⟩ := f
        simp at hs
        rw [buildTypeFields] at herr
        cases hbt : buildType t with
        | error er =>
          rw [hbt] at herr
          dsimp only [] at herr
          injection herr with h
          exact (ih _ (by omega)).1 t e le_rfl (h ▸ hbt)
        | ok te =>
          rw [hbt] at herr
          dsimp only [] at herr
          cases hbr : buildTypeFields rest with
          | error er =>
            rw [hbr] at herr
            dsimp only [] at herr
            injection herr with h
            exact (ih _ (by omega)).2 rest e le_rfl (h ▸ hbr)
          | ok gs =>
            rw [hbr] at herr
            cases gs with
            | nil => exact absurd herr (by simp)
            | cons g gs2 =>
              obtain ⟨ns, te2⟩ := g
              dsimp only [] at herr
              split at herr <;> exact absurd herr (by simp)

/-- Every error of `buildType` carries an unsupported (func or chan) type. -/
theorem buildType_error_char1 (t : Ty) (e : Err) (herr : buildType t = .error e) :
    ∃ u, e = .unexpectedType u ∧ (u = .func ∨ u = .chan_) :=
  (buildType_error_char (sizeOf t)).1 t e le_rfl herr

/-- Every error of the `buildInner` family carries an unsupported (func or
chan) type: the only error sites are the func and chan cases and `buildType`. -/
theorem buildInner_error_char : ∀ n : Nat,
    (∀ (v : Value) (st : Scope) (e : Err), sizeOf v ≤ n → buildInner v st = .error e →
      ∃ u, e = .unexpectedType u ∧ (u = .func ∨ u = .chan_)) ∧
    (∀ (vs : List Value) (st : Scope) (e : Err), sizeOf vs ≤ n →
      buildValueList vs st = .error e →
      ∃ u, e = .unexpectedType u ∧ (u = .func ∨ u = .chan_)) ∧
    (∀ (ps : List (Value × Value)) (st : Scope) (e : Err), sizeOf ps ≤ n →
      buildEntryList ps st = .error e →
      ∃ u, e = .unexpectedType u ∧ (u = .func ∨ u = .chan_)) ∧
    (∀ (fs : List (String × Value)) (st : Scope) (e : Err), sizeOf fs ≤ n →
      buildFieldList fs st = .error e →
      ∃ u, e = .unexpectedType u ∧ (u = .func ∨ u = .chan_)) := by
  intro n
  induction n using Nat.strong_induction_on with
  | _ n ih =>
    refine ⟨?_, ?_, ?_, ?_⟩
    · intro v st e hs herr
      cases v <;> (try (rw [buildInner] at herr; simp at herr; done))
      next s =>
        rw [buildInner] at herr
        cases hc : (s.contains '"' && !(s.contains bq)) with
        | false => rw [hc] at herr; simp at herr
        | true =>
          rw [hc] at herr
          simp only [if_true] at herr
          by_cases hl : utf8Len (goQuote (s.filter (fun c => c ≠ '"'))) =
              utf8Len (s.filter (fun c => c ≠ '"')) + 2
          · rw [if_pos hl] at herr
            exact absurd herr (by simp)
          · rw [if_neg hl] at herr
            exact absurd herr (by simp)
      next e2 =>
        simp at hs
        rw [buildInner] at herr
        cases hbi : buildInner e2 st with
        | error er =>
          rw [hbi] at herr
          dsimp only [] at herr
          injection herr with h
          exact (ih _ (by omega)).1 e2 st e le_rfl (h ▸ hbi)
        | ok p =>
          obtain ⟨ee, st1⟩ := p
          rw [hbi] at herr
          dsimp only [] at herr
          have hbt : buildType Ty.iface = Except.ok Expr.ifaceType := rfl
          rw [hbt] at herr
          dsimp only [] at herr
          exact absurd herr (by simp)
      next t es =>
        simp at hs
        rw [buildInner] at herr
        cases hbl : buildValueList es st with
        | error er =>
          rw [hbl] at herr
          dsimp only [] at herr
          injection herr with h
          exact (ih _ (by omega)).2.1 es st e le_rfl (h ▸ hbl)
        | ok p =>
          obtain ⟨es2, st1⟩ := p
          rw [hbl] at herr
          dsimp only [] at herr
          cases hbt : buildType (Ty.array es.length t) with
          | error er =>
            rw [hbt] at herr
            dsimp only [] at herr
            injection herr with h
            exact buildType_error_char1 _ e (h ▸ hbt)
          | ok te =>
            rw [hbt] at herr
            dsimp only [] at herr
            exact absurd herr (by simp)
      next t es =>
        simp at hs
        rw [buildInner] at herr
        cases hbl : buildValueList es st with
        | error er =>
          rw [hbl] at herr
          dsimp only [] at herr
          injection herr with h
          exact (ih _ (by omega)).2.1 es st e le_rfl (h ▸ hbl)
        | ok p =>
          obtain ⟨es2, st1⟩ := p
          rw [hbl] at herr
          dsimp only [] at herr
          cases hbt : buildType (Ty.slice t) with
          | error er =>
            rw [hbt] at herr
            dsimp only [] at herr
            injection herr with h
            exact buildType_error_char1 _ e (h ▸ hbt)
          | ok te =>
            rw [hbt] at herr
            dsimp only [] at herr
            exact absurd herr (by simp)
      next kt vt ps =>
        simp at hs
        rw [buildInner] at herr
        cases hbl : buildEntryList ps st with
        | error er =>
          rw [hbl] at herr
          dsimp only [] at herr
          injection herr with h
          exact (ih _ (by omega)).2.2.1 ps st e le_rfl (h ▸ hbl)
        | ok p =>
          obtain ⟨pairs, st1⟩ := p
          rw [hbl] at herr
          dsimp only [] at herr
          cases hbt : buildType (Ty.map kt vt) with
          | error er =>
            rw [hbt] at herr
            dsimp only [] at herr
            injection herr with h
            exact buildType_error_char1 _ e (h ▸ hbt)
          | ok te =>
            rw [hbt] at herr
            dsimp only [] at herr
            exact absurd herr (by simp)
      next name fields =>
        simp at hs
        rw [buildInner] at herr
        cases hbl : buildFieldList fields st with
        | error er =>
          rw [hbl] at herr
          dsimp only [] at herr
          injection herr with h
          exact (ih _ (by omega)).2.2.2 fields st e le_rfl (h ▸ hbl)
        | ok p =>
          obtain ⟨es2, st1⟩ := p
          rw [hbl] at herr
          dsimp only [] at herr
          cases hbt : buildType (tyOf (.structV name fields)) with
          | error er =>
            rw [hbt] at herr
            dsimp only [] at herr
            injection herr with h
            exact buildType_error_char1 _ e (h ▸ hbt)
          | ok te =>
            rw [hbt] at herr
            dsimp only [] at herr
            exact absurd herr (by simp)
      next elemTy elem =>
        cases elem with
        | none => rw [buildInner] at herr; exact absurd herr (by simp)
        | some e2 =>
          simp at hs
          rw [buildInner] at herr
          cases hbi : buildInner e2 st with
          | error er =>
            rw [hbi] at herr
            dsimp only [] at herr
            injection herr with h
            exact (ih _ (by omega)).1 e2 st e le_rfl (h ▸ hbi)
          | ok p =>
            obtain ⟨w, st1⟩ := p
            rw [hbi] at herr
            dsimp only [] at herr
            split at herr
            · rename_i k val
              cases hbt : buildType elemTy with
              | error er =>
                rw [hbt] at herr
                dsimp only [] at herr
                injection herr with h
                exact buildType_error_char1 _ e (h ▸ hbt)
              | ok te =>
                rw [hbt] at herr
                dsimp only [] at herr
                cases hgv : getVarName te (Expr.basicLit k val) st1 with
                | mk nm st2 =>
                  rw [hgv] at herr
                  dsimp only [] at herr
                  exact absurd herr (by simp)
            · exact absurd herr (by simp)
      next =>
        rw [buildInner] at herr
        injection herr with h
        exact ⟨.func, h.symm, Or.inl rfl⟩
      next =>
        rw [buildInner] at herr
        injection herr with h
        exact ⟨.chan_, h.symm, Or.inr rfl⟩
    · intro vs st e hs herr
      cases vs with
      | nil => rw [buildValueList] at herr; exact absurd herr (by simp)
      | cons v rest =>
        simp at hs
        rw [buildValueList] at herr
        cases hbi : buildInner v st with
        | error er =>
          rw [hbi] at herr
          dsimp only [] at herr
          injection herr with h
          exact (ih _ (by omega)).1 v st e le_rfl (h ▸ hbi)
        | ok p =>
          obtain ⟨e1, st1⟩ := p
          rw [hbi] at herr
          dsimp only [] at herr
          cases hbr : buildValueList rest st1 with
          | error er =>
            rw [hbr] at herr
            dsimp only [] at herr
            injection herr with h
            exact (ih _ (by omega)).2.1 rest st1 e le_rfl (h ▸ hbr)
          | ok q =>
            obtain ⟨es, st2⟩ := q
            rw [hbr] at herr
            dsimp only [] at herr
            exact absurd herr (by simp)
    · intro ps st e hs herr
      cases ps with
      | nil => rw [buildEntryList] at herr; exact absurd herr (by simp)
      | cons p rest =>
        obtain ⟨k, v⟩ := p
        simp at hs
        rw [buildEntryList] at herr
        cases hbk : buildInner k st with
        | error er =>
          rw [hbk] at herr
          dsimp only [] at herr
          injection herr with h
          exact (ih _ (by omega)).1 k st e le_rfl (h ▸ hbk)
        | ok q =>
          obtain ⟨ke, st1⟩ := q
          rw [hbk] at herr
          dsimp only [] at herr
          cases hbv : buildInner v st1 with
          | error er =>
            rw [hbv] at herr
            dsimp only [] at herr
            injection herr with h
            exact (ih _ (by omega)).1 v st1 e le_rfl (h ▸ hbv)
          | ok q2 =>
            obtain ⟨ve, st2⟩ := q2
            rw [hbv] at herr
            dsimp only [] at herr
            cases hbr : buildEntryList rest st2 with
            | error er =>
              rw [hbr] at herr
              dsimp only [] at herr
              injection herr with h
              exact (ih _ (by omega)).2.2.1 rest st2 e le_rfl (h ▸ hbr)
            | ok q3 =>
              obtain ⟨es, st3⟩ := q3
              rw [hbr] at herr
              dsimp only [] at herr
              exact absurd herr (by simp)
    · intro fs st e hs herr
      cases fs with
      | nil => rw [buildFieldList] at herr; exact absurd herr (by simp)
      | cons f rest =>
        obtain ⟨nm, v⟩ := f
        simp at hs
        rw [buildFieldList] at herr
        by_cases hz : isZero v
        · rw [if_pos hz] at herr
          exact (ih _ (by omega)).2.2.2 rest st e le_rfl herr
        · rw [if_neg hz] at herr
          cases hbi : buildInner v st with
          | error er =>
            rw [hbi] at herr
            dsimp only [] at herr
            injection herr with h
            exact (ih _ (by omega)).1 v st e le_rfl (h ▸ hbi)
          | ok p =>
            obtain ⟨w, st1⟩ := p
            rw [hbi] at herr
            dsimp only [] at herr
            cases hbr : buildFieldList rest st1 with
            | error er =>
              rw [hbr] at herr
              dsimp only [] at herr
              injection herr with h
              exact (ih _ (by omega)).2.2.2 rest st1 e le_rfl (h ▸ hbr)
            | ok q =>
              obtain ⟨ws, st2⟩ := q
              rw [hbr] at herr
              dsimp only [] at herr
              exact absurd herr (by simp)

/-- Every error of `buildInner` carries an unsupported (func or chan) type. -/
theorem buildInner_error_char1 (v : Value) (st : Scope) (e : Err)
    (herr : buildInner v st = .error e) :
    ∃ u, e = .unexpectedType u ∧ (u = .func ∨ u = .chan_) :=
  (buildInner_error_char (sizeOf v)).1 v st e le_rfl herr

/-- A value whose recursive walk reaches an unsupported kind makes
`buildInner` fail, from every starting scope. -/
theorem buildInner_unsupported : ∀ n : Nat,
    (∀ (v : Value) (st : Scope), sizeOf v ≤ n → hasUnsupported v = true →
      ∃ e, buildInner v st = .error e) ∧
    (∀ (vs : List Value) (st : Scope), sizeOf vs ≤ n → hasUnsupportedList vs = true →
      ∃ e, buildValueList vs st = .error e) ∧
    (∀ (ps : List (Value × Value)) (st : Scope), sizeOf ps ≤ n →
      hasUnsupportedEntries ps = true → ∃ e, buildEntryList ps st = .error e) ∧
    (∀ (fs : List (String × Value)) (st : Scope), sizeOf fs ≤ n →
      hasUnsupportedFields fs = true → ∃ e, buildFieldList fs st = .error e) := by
  intro n
  induction n using Nat.strong_induction_on with
  | _ n ih =>
    refine ⟨?_, ?_, ?_, ?_⟩
    · intro v st hs hu
      cases v <;> (try (simp [hasUnsupported] at hu; done))
      next e2 =>
        simp at hs
        rw [hasUnsupported] at hu
        obtain ⟨er, hbi⟩ := (ih _ (by omega)).1 e2 st le_rfl hu
        exact ⟨er, by rw [buildInner, hbi]⟩
      next t es =>
        simp at hs
        rw [hasUnsupported] at hu
        obtain ⟨er, hbl⟩ := (ih _ (by omega)).2.1 es st le_rfl hu
        exact ⟨er, by rw [buildInner, hbl]⟩
      next t es =>
        simp at hs
        rw [hasUnsupported] at hu
        obtain ⟨er, hbl⟩ := (ih _ (by omega)).2.1 es st le_rfl hu
        exact ⟨er, by rw [buildInner, hbl]⟩
      next kt vt ps =>
        simp at hs
        rw [hasUnsupported] at hu
        obtain ⟨er, hbl⟩ := (ih _ (by omega)).2.2.1 ps st le_rfl hu
        exact ⟨er, by rw [buildInner, hbl]⟩
      next name fields =>
        simp at hs
        rw [hasUnsupported] at hu
        obtain ⟨er, hbl⟩ := (ih _ (by omega)).2.2.2 fields st le_rfl hu
        exact ⟨er, by rw [buildInner, hbl]⟩
      next elemTy elem =>
        cases elem with
        | none => simp [hasUnsupported] at hu
        | some e2 =>
          simp at hs
          rw [hasUnsupported] at hu
          obtain ⟨er, hbi⟩ := (ih _ (by omega)).1 e2 st le_rfl hu
          exact ⟨er, by rw [buildInner, hbi]⟩
      next => exact ⟨.unexpectedType .func, rfl⟩
      next => exact ⟨.unexpectedType .chan_, rfl⟩
    · intro vs st hs hu
      cases vs with
      | nil => exact absurd hu (by simp [hasUnsupportedList])
      | cons v rest =>
        simp at hs
        rw [hasUnsupportedList, Bool.or_eq_true] at hu
        rcases hu with hu | hu
        · obtain ⟨er, hbi⟩ := (ih _ (by omega)).1 v st le_rfl hu
          exact ⟨er, by rw [buildValueList, hbi]⟩
        · cases hbi : buildInner v st with
          | error er => exact ⟨er, by rw [buildValueList, hbi]⟩
          | ok p =>
            obtain ⟨e1, st1⟩ := p
            obtain ⟨er, hbr⟩ := (ih _ (by omega)).2.1 rest st1 le_rfl hu
            exact ⟨er, by rw [buildValueList, hbi]; dsimp only []; rw [hbr]⟩
    · intro ps st hs hu
      cases ps with
      | nil => exact absurd hu (by simp [hasUnsupportedEntries])
      | cons p rest =>
        obtain ⟨k, v⟩ := p
        simp at hs
        rw [hasUnsupportedEntries, Bool.or_eq_true, Bool.or_eq_true] at hu
        rcases hu with (hu | hu) | hu
        · obtain ⟨er, hbk⟩ := (ih _ (by omega)).1 k st le_rfl hu
          exact ⟨er, by rw [buildEntryList, hbk]⟩
        · cases hbk : buildInner k st with
          | error er => exact ⟨er, by rw [buildEntryList, hbk]⟩
          | ok q =>
            obtain ⟨ke, st1⟩ := q
            obtain ⟨er, hbv⟩ := (ih _ (by omega)).1 v st1 le_rfl hu
            exact ⟨er, by rw [buildEntryList, hbk]; dsimp only []; rw [hbv]⟩
        · cases hbk : buildInner k st with
          | error er => exact ⟨er, by rw [buildEntryList, hbk]⟩
          | ok q =>
            obtain ⟨ke, st1⟩ := q
            cases hbv : buildInner v st1 with
            | error er => exact ⟨er, by rw [buildEntryList, hbk]; dsimp only []; rw [hbv]⟩
            | ok q2 =>
              obtain ⟨ve, st2⟩ := q2
              obtain ⟨er, hbr⟩ := (ih _ (by omega)).2.2.1 rest st2 le_rfl hu
              exact ⟨er, by rw [buildEntryList, hbk]; dsimp only []; rw [hbv]; dsimp only []; rw [hbr]⟩
    · intro fs st hs hu
      cases fs with
      | nil => exact absurd hu (by simp [hasUnsupportedFields])
      | cons f rest =>
        obtain ⟨nm, v⟩ := f
        simp at hs
        rw [hasUnsupportedFields] at hu
        by_cases hz : isZero v
        · simp [hz] at hu
          obtain ⟨er, hbr⟩ := (ih _ (by omega)).2.2.2 rest st le_rfl hu
          exact ⟨er, by rw [buildFieldList, if_pos hz, hbr]⟩
        · rw [Bool.or_eq_true, Bool.and_eq_true] at hu
          rcases hu with ⟨-, hu⟩ | hu
          · obtain ⟨er, hbi⟩ := (ih _ (by omega)).1 v st le_rfl hu
            exact ⟨er, by rw [buildFieldList, if_neg hz, hbi]⟩
          · cases hbi : buildInner v st with
            | error er => exact ⟨er, by rw [buildFieldList, if_neg hz, hbi]⟩
            | ok p =>
              obtain ⟨w, st1⟩ := p
              obtain ⟨er, hbr⟩ := (ih _ (by omega)).2.2.2 rest st1 le_rfl hu
              exact ⟨er, by rw [buildFieldList, if_neg hz, hbi]; dsimp only []; rw [hbr]⟩

/-- Claim C5: whenever the recursive walk meets a value of an unsupported
kind (a func or chan value, at any depth reached by the walk), `build` fails
with an error identifying an unsupported type; and conversely every error
`build` ever returns identifies an unsupported (func or chan) type.  The
fail-fast, no-partial-tree behaviour is inherent in the result type: an
erroring build returns `.error` and no expression. -/
theorem c5_unsupported_error (v : Value) :
    (hasUnsupported v = true →
      ∃ u, build v = .error (.unexpectedType u) ∧ (u = .func ∨ u = .chan_)) ∧
    (∀ e, build v = .error e →
      ∃ u, e = .unexpectedType u ∧ (u = .func ∨ u = .chan_)) := by
  constructor
  · intro hu
    obtain ⟨e, hbi⟩ := (buildInner_unsupported (sizeOf v)).1 v [] le_rfl hu
    obtain ⟨u, he, hor⟩ := buildInner_error_char1 v [] e hbi
    subst he
    exact ⟨u, by rw [build, hbi], hor⟩
  · intro e herr
    rw [build] at herr
    cases hbi : buildInner v [] with
    | error er =>
      rw [hbi] at herr
      dsimp only [] at herr
      injection herr with h
      exact buildInner_error_char1 v [] e (h ▸ hbi)
    | ok p =>
      obtain ⟨nd, vars⟩ := p
      rw [hbi] at herr
      dsimp only [] at herr
      split at herr
      · exact absurd herr (by simp)
      · cases hbt : buildType (tyOf v) with
        | error er =>
          rw [hbt] at herr
          dsimp only [] at herr
          injection herr with h
          exact buildType_error_char1 _ e (h ▸ hbt)
        | ok t =>
          rw [hbt] at herr
          dsimp only [] at herr
          exact absurd herr (by simp)

theorem c5_unsupported_error_witness :
    (hasUnsupported (Value.sliceV .int [.intV 1, .funcV]) = true ∧
      ∃ u, build (Value.sliceV .int [.intV 1, .funcV]) = .error (.unexpectedType u) ∧
        (u = .func ∨ u = .chan_)) ∧
    (∃ u, Err.unexpectedType .func = .unexpectedType u ∧ (u = .func ∨ u = .chan_)) :=
  ⟨⟨by decide, (c5_unsupported_error (Value.sliceV .int [.intV 1, .funcV])).1 (by decide)⟩,
    (c5_unsupported_error (Value.sliceV .int [.intV 1, .funcV])).2 (.unexpectedType .func) rfl⟩


/-! ### Claim C1: map entry ordering -/

/-- The insertion step of `sortByRender` is the library ordered insert. -/
theorem insertByRender_eq (e : Expr) (l : List Expr) :
    insertByRender e l =
      List.orderedInsert (fun a b => renderKey a ≤ renderKey b) e l := by
  induction l with
  | nil => rfl
  | cons x xs ih => rw [insertByRender, List.orderedInsert, ih]

/-- The sort model is the library insertion sort for the rendered-text order. -/
theorem sortByRender_eq (l : List Expr) :
    sortByRender l = List.insertionSort (fun a b => renderKey a ≤ renderKey b) l := by
  induction l with
  | nil => rfl
  | cons x xs ih => rw [sortByRender, List.insertionSort, ih, insertByRender_eq]

/-- Sorting permutes the pair list. -/
theorem sortByRender_perm (l : List Expr) : (sortByRender l).Perm l := by
  rw [sortByRender_eq]
  exact List.perm_insertionSort _ l

/-- Sorting orders the pairs by their rendered text. -/
theorem sortByRender_sorted (l : List Expr) :
    (sortByRender l).Sorted (fun a b => renderKey a ≤ renderKey b) := by
  rw [sortByRender_eq]
  haveI h1 : IsTotal Expr (fun a b => renderKey a ≤ renderKey b) :=
    ⟨fun a b => le_total (renderKey a) (renderKey b)⟩
  haveI h2 : IsTrans Expr (fun a b => renderKey a ≤ renderKey b) :=
    ⟨fun _ _ _ hab hbc => le_trans hab hbc⟩
  exact List.sorted_insertionSort _ l

theorem sorted_perm_unique : ∀ l1 l2 : List Expr, l1.Perm l2 →
    l1.Sorted (fun a b => renderKey a ≤ renderKey b) →
    l2.Sorted (fun a b => renderKey a ≤ renderKey b) →
    (l1.map renderKey).Nodup → l1 = l2 := by
  intro l1
  induction l1 with
  | nil => intro l2 hp _ _ _; exact (hp.symm.eq_nil).symm
  | cons a t1 ih =>
    intro l2 hp hs1 hs2 hnd
    cases l2 with
    | nil => exact absurd hp.eq_nil (by simp)
    | cons b t2 =>
      have hab : a = b := by
        by_contra hne
        have hain : a ∈ b :: t2 := hp.mem_iff.mp (List.mem_cons_self a t1)
        have hbin : b ∈ a :: t1 := hp.mem_iff.mpr (List.mem_cons_self b t2)
        have hat2 : a ∈ t2 := (List.mem_cons.mp hain).resolve_left hne
        have hbt1 : b ∈ t1 := (List.mem_cons.mp hbin).resolve_left (fun h => hne h.symm)
        have h1 : renderKey a ≤ renderKey b := (List.sorted_cons.mp hs1).1 b hbt1
        have h2 : renderKey b ≤ renderKey a := (List.sorted_cons.mp hs2).1 a hat2
        have heq : renderKey b = renderKey a := le_antisymm h2 h1
        have hmem : renderKey a ∈ t1.map renderKey :=
          heq ▸ List.mem_map_of_mem renderKey hbt1
        rw [List.map_cons, List.nodup_cons] at hnd
        exact hnd.1 hmem
      subst hab
      have hpt : t1.Perm t2 := hp.cons_inv
      rw [List.map_cons, List.nodup_cons] at hnd
      rw [ih t2 hpt (List.sorted_cons.mp hs1).2 (List.sorted_cons.mp hs2).2 hnd.2]

/-- The direct build of any value that is no plain int, default-width float
or string never yields a bare basic literal. -/
theorem notBasicLit : ∀ (v : Value) (st st1 : Scope) (w : Expr),
    isScalarLit v = false → buildInner v st = .ok (w, st1) → notBasicLitP w := by
  intro v st st1 w hsc hok
  cases v with
  | invalid => rw [buildInner] at hok; simp only [Except.ok.injEq, Prod.mk.injEq] at hok; cases hok.1; trivial
  | boolV b => cases b <;> (rw [buildInner] at hok; simp at hok; cases hok.1; trivial)
  | intV i => simp [isScalarLit] at hsc
  | int8V i => rw [buildInner] at hok; simp only [Except.ok.injEq, Prod.mk.injEq] at hok; cases hok.1; trivial
  | int16V i => rw [buildInner] at hok; simp only [Except.ok.injEq, Prod.mk.injEq] at hok; cases hok.1; trivial
  | int32V i => rw [buildInner] at hok; simp only [Except.ok.injEq, Prod.mk.injEq] at hok; cases hok.1; trivial
  | int64V i => rw [buildInner] at hok; simp only [Except.ok.injEq, Prod.mk.injEq] at hok; cases hok.1; trivial
  | uintV m => rw [buildInner] at hok; simp only [Except.ok.injEq, Prod.mk.injEq] at hok; cases hok.1; trivial
  | uint8V m => rw [buildInner] at hok; simp only [Except.ok.injEq, Prod.mk.injEq] at hok; cases hok.1; trivial
  | uint16V m => rw [buildInner] at hok; simp only [Except.ok.injEq, Prod.mk.injEq] at hok; cases hok.1; trivial
  | uint32V m => rw [buildInner] at hok; simp only [Except.ok.injEq, Prod.mk.injEq] at hok; cases hok.1; trivial
  | uint64V m => rw [buildInner] at hok; simp only [Except.ok.injEq, Prod.mk.injEq] at hok; cases hok.1; trivial
  | float32V f => rw [buildInner] at hok; simp only [Except.ok.injEq, Prod.mk.injEq] at hok; cases hok.1; trivial
  | float64V f => simp [isScalarLit] at hsc
  | complex64V re im => rw [buildInner] at hok; simp only [Except.ok.injEq, Prod.mk.injEq] at hok; cases hok.1; trivial
  | complex128V re im => rw [buildInner] at hok; simp only [Except.ok.injEq, Prod.mk.injEq] at hok; cases hok.1; trivial
  | stringV s => simp [isScalarLit] at hsc
  | ifaceV e2 =>
    rw [buildInner] at hok
    cases hbi : buildInner e2 st with
    | error er => rw [hbi] at hok; simp at hok
    | ok p =>
      obtain ⟨ee, st2⟩ := p
      rw [hbi] at hok
      dsimp only [] at hok
      have hbt : buildType Ty.iface = Except.ok Expr.ifaceType := rfl
      rw [hbt] at hok
      dsimp only [] at hok
      simp only [Except.ok.injEq, Prod.mk.injEq] at hok
      cases hok.1
      trivial
  | arrayV t es =>
    rw [buildInner] at hok
    cases hbl : buildValueList es st with
    | error er => rw [hbl] at hok; simp at hok
    | ok p =>
      obtain ⟨es2, st2⟩ := p
      rw [hbl] at hok
      dsimp only [] at hok
      cases hbt : buildType (Ty.array es.length t) with
      | error er => rw [hbt] at hok; simp at hok
      | ok te =>
        rw [hbt] at hok
        dsimp only [] at hok
        simp only [Except.ok.injEq, Prod.mk.injEq] at hok
        cases hok.1
        trivial
  | sliceV t es =>
    rw [buildInner] at hok
    cases hbl : buildValueList es st with
    | error er => rw [hbl] at hok; simp at hok
    | ok p =>
      obtain ⟨es2, st2⟩ := p
      rw [hbl] at hok
      dsimp only [] at hok
      cases hbt : buildType (Ty.slice t) with
      | error er => rw [hbt] at hok; simp at hok
      | ok te =>
        rw [hbt] at hok
        dsimp only [] at hok
        simp only [Except.ok.injEq, Prod.mk.injEq] at hok
        cases hok.1
        trivial
  | mapV kt vt ps =>
    rw [buildInner] at hok
    cases hbl : buildEntryList ps st with
    | error er => rw [hbl] at hok; simp at hok
    | ok p =>
      obtain ⟨pairs, st2⟩ := p
      rw [hbl] at hok
      dsimp only [] at hok
      cases hbt : buildType (Ty.map kt vt) with
      | error er => rw [hbt] at hok; simp at hok
      | ok te =>
        rw [hbt] at hok
        dsimp only [] at hok
        simp only [Except.ok.injEq, Prod.mk.injEq] at hok
        cases hok.1
        trivial
  | structV name fields =>
    rw [buildInner] at hok
    cases hbl : buildFieldList fields st with
    | error er => rw [hbl] at hok; simp at hok
    | ok p =>
      obtain ⟨es2, st2⟩ := p
      rw [hbl] at hok
      dsimp only [] at hok
      cases hbt : buildType (tyOf (.structV name fields)) with
      | error er => rw [hbt] at hok; simp at hok
      | ok te =>
        rw [hbt] at hok
        dsimp only [] at hok
        simp only [Except.ok.injEq, Prod.mk.injEq] at hok
        cases hok.1
        trivial
  | ptrV elemTy elem =>
    cases elem with
    | none =>
      rw [buildInner] at hok
      simp only [Except.ok.injEq, Prod.mk.injEq] at hok
      cases hok.1
      trivial
    | some e2 =>
      rw [buildInner] at hok
      cases hbi : buildInner e2 st with
      | error er => rw [hbi] at hok; simp at hok
      | ok p =>
        obtain ⟨w2, st2⟩ := p
        rw [hbi] at hok
        dsimp only [] at hok
        split at hok
        · rename_i k val
          cases hbt : buildType elemTy with
          | error er => rw [hbt] at hok; simp at hok
          | ok te =>
            rw [hbt] at hok
            dsimp only [] at hok
            cases hgv : getVarName te (Expr.basicLit k val) st2 with
            | mk nm st3 =>
              rw [hgv] at hok
              dsimp only [] at hok
              simp only [Except.ok.injEq, Prod.mk.injEq] at hok
              cases hok.1
              trivial
        · simp only [Except.ok.injEq, Prod.mk.injEq] at hok
          cases hok.1
          trivial
  | funcV => rw [buildInner] at hok; simp at hok
  | chanV => rw [buildInner] at hok; simp at hok

/-- A pointer to a value whose build result is no bare basic literal takes
the direct address-of branch. -/
theorem ptr_some_ok (ty : Ty) (e2 : Value) (st st1 : Scope) (w : Expr)
    (hw : buildInner e2 st = .ok (w, st1)) (hnb : notBasicLitP w) :
    buildInner (.ptrV ty (some e2)) st = .ok (.addrOf w, st1) := by
  cases w <;> (try (rw [buildInner, hw]; done))
  exact hnb.elim

/-- A binding-free build is state-independent: it returns its scope
untouched and an expression that does not depend on the scope. -/
theorem bindFree_pure : ∀ n : Nat,
    (∀ (v : Value) (st : Scope), sizeOf v ≤ n → bindFree v = true →
      buildInner v st = match pureExpr v with
        | .error e => .error e
        | .ok e => .ok (e, st)) ∧
    (∀ (vs : List Value) (st : Scope), sizeOf vs ≤ n → bindFreeList vs = true →
      buildValueList vs st = match pureExprList vs with
        | .error e => .error e
        | .ok es => .ok (es, st)) ∧
    (∀ (ps : List (Value × Value)) (st : Scope), sizeOf ps ≤ n → bindFreeEntries ps = true →
      buildEntryList ps st = match pureEntryList ps with
        | .error e => .error e
        | .ok es => .ok (es, st)) ∧
    (∀ (fs : List (String × Value)) (st : Scope), sizeOf fs ≤ n → bindFreeFields fs = true →
      buildFieldList fs st = match pureFieldList fs with
        | .error e => .error e
        | .ok es => .ok (es, st)) := by
  intro n
  induction n using Nat.strong_induction_on with
  | _ n ih =>
    refine ⟨?_, ?_, ?_, ?_⟩
    · intro v st hs hb
      cases v <;> (try rfl)
      next b => cases b <;> rfl
      next s =>
        cases hc : (s.contains '"' && !(s.contains bq)) with
        | false =>
          have hL : buildInner (.stringV s) st =
              .ok (.basicLit .str (String.mk (goQuote s)), st) := by
            rw [buildInner, hc]
            rfl
          have hnil : buildInner (.stringV s) [] =
              .ok (.basicLit .str (String.mk (goQuote s)), []) := by
            rw [buildInner, hc]
            rfl
          have hP : pureExpr (.stringV s) = .ok (.basicLit .str (String.mk (goQuote s))) := by
            rw [pureExpr, hnil]
          rw [hL, hP]
        | true =>
          by_cases hl : utf8Len (goQuote (s.filter (fun c => c ≠ '"'))) =
              utf8Len (s.filter (fun c => c ≠ '"')) + 2
          · have hL : buildInner (.stringV s) st =
                .ok (.basicLit .str (String.mk (bq :: (s ++ [bq]))), st) := by
              rw [buildInner, hc]
              simp only [if_true]
              rw [if_pos hl]
            have hnil : buildInner (.stringV s) [] =
                .ok (.basicLit .str (String.mk (bq :: (s ++ [bq]))), []) := by
              rw [buildInner, hc]
              simp only [if_true]
              rw [if_pos hl]
            have hP : pureExpr (.stringV s) =
                .ok (.basicLit .str (String.mk (bq :: (s ++ [bq])))) := by
              rw [pureExpr, hnil]
            rw [hL, hP]
          · have hL : buildInner (.stringV s) st =
                .ok (.basicLit .str (String.mk (goQuote s)), st) := by
              rw [buildInner, hc]
              simp only [if_true]
              rw [if_neg hl]
            have hnil : buildInner (.stringV s) [] =
                .ok (.basicLit .str (String.mk (goQuote s)), []) := by
              rw [buildInner, hc]
              simp only [if_true]
              rw [if_neg hl]
            have hP : pureExpr (.stringV s) =
                .ok (.basicLit .str (String.mk (goQuote s))) := by
              rw [pureExpr, hnil]
            rw [hL, hP]
      next e2 =>
        rw [bindFree] at hb
        simp at hs
        cases hpe : pureExpr e2 with
        | error er =>
          have hst : buildInner e2 st = .error er := by
            rw [(ih _ (by omega)).1 e2 st le_rfl hb, hpe]
          have hnl : buildInner e2 [] = .error er := by
            rw [(ih _ (by omega)).1 e2 [] le_rfl hb, hpe]
          have hL : buildInner (.ifaceV e2) st = .error er := by rw [buildInner, hst]
          have hRn : buildInner (.ifaceV e2) [] = .error er := by rw [buildInner, hnl]
          have hP : pureExpr (.ifaceV e2) = .error er := by rw [pureExpr, hRn]
          rw [hL, hP]
        | ok ee =>
          have hst : buildInner e2 st = .ok (ee, st) := by
            rw [(ih _ (by omega)).1 e2 st le_rfl hb, hpe]
          have hnl : buildInner e2 [] = .ok (ee, []) := by
            rw [(ih _ (by omega)).1 e2 [] le_rfl hb, hpe]
          have hL : buildInner (.ifaceV e2) st = .ok (.call .ifaceType [ee], st) := by
            rw [buildInner, hst]
            rfl
          have hRn : buildInner (.ifaceV e2) [] = .ok (.call .ifaceType [ee], []) := by
            rw [buildInner, hnl]
            rfl
          have hP : pureExpr (.ifaceV e2) = .ok (.call .ifaceType [ee]) := by
            rw [pureExpr, hRn]
          rw [hL, hP]
      next t es =>
        rw [bindFree] at hb
        simp at hs
        cases hpl : pureExprList es with
        | error er =>
          have hst : buildValueList es st = .error er := by
            rw [(ih _ (by omega)).2.1 es st le_rfl hb, hpl]
          have hnl : buildValueList es [] = .error er := by
            rw [(ih _ (by omega)).2.1 es [] le_rfl hb, hpl]
          have hL : buildInner (.arrayV t es) st = .error er := by rw [buildInner, hst]
          have hRn : buildInner (.arrayV t es) [] = .error er := by rw [buildInner, hnl]
          have hP : pureExpr (.arrayV t es) = .error er := by rw [pureExpr, hRn]
          rw [hL, hP]
        | ok es2 =>
          have hst : buildValueList es st = .ok (es2, st) := by
            rw [(ih _ (by omega)).2.1 es st le_rfl hb, hpl]
          have hnl : buildValueList es [] = .ok (es2, []) := by
            rw [(ih _ (by omega)).2.1 es [] le_rfl hb, hpl]
          cases hbt : buildType (Ty.array es.length t) with
          | error er2 =>
            have hL : buildInner (.arrayV t es) st = .error er2 := by
              rw [buildInner, hst]
              dsimp only []
              rw [hbt]
            have hRn : buildInner (.arrayV t es) [] = .error er2 := by
              rw [buildInner, hnl]
              dsimp only []
              rw [hbt]
            have hP : pureExpr (.arrayV t es) = .error er2 := by rw [pureExpr, hRn]
            rw [hL, hP]
          | ok te =>
            have hL : buildInner (.arrayV t es) st = .ok (.composite te es2, st) := by
              rw [buildInner, hst]
              dsimp only []
              rw [hbt]
            have hRn : buildInner (.arrayV t es) [] = .ok (.composite te es2, []) := by
              rw [buildInner, hnl]
              dsimp only []
              rw [hbt]
            have hP : pureExpr (.arrayV t es) = .ok (.composite te es2) := by
              rw [pureExpr, hRn]
            rw [hL, hP]
      next t es =>
        rw [bindFree] at hb
        simp at hs
        cases hpl : pureExprList es with
        | error er =>
          have hst : buildValueList es st = .error er := by
            rw [(ih _ (by omega)).2.1 es st le_rfl hb, hpl]
          have hnl : buildValueList es [] = .error er := by
            rw [(ih _ (by omega)).2.1 es [] le_rfl hb, hpl]
          have hL : buildInner (.sliceV t es) st = .error er := by rw [buildInner, hst]
          have hRn : buildInner (.sliceV t es) [] = .error er := by rw [buildInner, hnl]
          have hP : pureExpr (.sliceV t es) = .error er := by rw [pureExpr, hRn]
          rw [hL, hP]
        | ok es2 =>
          have hst : buildValueList es st = .ok (es2, st) := by
            rw [(ih _ (by omega)).2.1 es st le_rfl hb, hpl]
          have hnl : buildValueList es [] = .ok (es2, []) := by
            rw [(ih _ (by omega)).2.1 es [] le_rfl hb, hpl]
          cases hbt : buildType (Ty.slice t) with
          | error er2 =>
            have hL : buildInner (.sliceV t es) st = .error er2 := by
              rw [buildInner, hst]
              dsimp only []
              rw [hbt]
            have hRn : buildInner (.sliceV t es) [] = .error er2 := by
              rw [buildInner, hnl]
              dsimp only []
              rw [hbt]
            have hP : pureExpr (.sliceV t es) = .error er2 := by rw [pureExpr, hRn]
            rw [hL, hP]
          | ok te =>
            have hL : buildInner (.sliceV t es) st = .ok (.composite te es2, st) := by
              rw [buildInner, hst]
              dsimp only []
              rw [hbt]
            have hRn : buildInner (.sliceV t es) [] = .ok (.composite te es2, []) := by
              rw [buildInner, hnl]
              dsimp only []
              rw [hbt]
            have hP : pureExpr (.sliceV t es) = .ok (.composite te es2) := by
              rw [pureExpr, hRn]
            rw [hL, hP]
      next kt vt ps =>
        rw [bindFree] at hb
        simp at hs
        cases hpl : pureEntryList ps with
        | error er =>
          have hst : buildEntryList ps st = .error er := by
            rw [(ih _ (by omega)).2.2.1 ps st le_rfl hb, hpl]
          have hnl : buildEntryList ps [] = .error er := by
            rw [(ih _ (by omega)).2.2.1 ps [] le_rfl hb, hpl]
          have hL : buildInner (.mapV kt vt ps) st = .error er := by rw [buildInner, hst]
          have hRn : buildInner (.mapV kt vt ps) [] = .error er := by rw [buildInner, hnl]
          have hP : pureExpr (.mapV kt vt ps) = .error er := by rw [pureExpr, hRn]
          rw [hL, hP]
        | ok pairs =>
          have hst : buildEntryList ps st = .ok (pairs, st) := by
            rw [(ih _ (by omega)).2.2.1 ps st le_rfl hb, hpl]
          have hnl : buildEntryList ps [] = .ok (pairs, []) := by
            rw [(ih _ (by omega)).2.2.1 ps [] le_rfl hb, hpl]
          cases hbt : buildType (Ty.map kt vt) with
          | error er2 =>
            have hL : buildInner (.mapV kt vt ps) st = .error er2 := by
              rw [buildInner, hst]
              dsimp only []
              rw [hbt]
            have hRn : buildInner (.mapV kt vt ps) [] = .error er2 := by
              rw [buildInner, hnl]
              dsimp only []
              rw [hbt]
            have hP : pureExpr (.mapV kt vt ps) = .error er2 := by rw [pureExpr, hRn]
            rw [hL, hP]
          | ok te =>
            have hL : buildInner (.mapV kt vt ps) st =
                .ok (.composite te (sortByRender pairs), st) := by
              rw [buildInner, hst]
              dsimp only []
              rw [hbt]
            have hRn : buildInner (.mapV kt vt ps) [] =
                .ok (.composite te (sortByRender pairs), []) := by
              rw [buildInner, hnl]
              dsimp only []
              rw [hbt]
            have hP : pureExpr (.mapV kt vt ps) = .ok (.composite te (sortByRender pairs)) := by
              rw [pureExpr, hRn]
            rw [hL, hP]
      next name fields =>
        rw [bindFree] at hb
        simp at hs
        cases hpl : pureFieldList fields with
        | error er =>
          have hst : buildFieldList fields st = .error er := by
            rw [(ih _ (by omega)).2.2.2 fields st le_rfl hb, hpl]
          have hnl : buildFieldList fields [] = .error er := by
            rw [(ih _ (by omega)).2.2.2 fields [] le_rfl hb, hpl]
          have hL : buildInner (.structV name fields) st = .error er := by rw [buildInner, hst]
          have hRn : buildInner (.structV name fields) [] = .error er := by rw [buildInner, hnl]
          have hP : pureExpr (.structV name fields) = .error er := by rw [pureExpr, hRn]
          rw [hL, hP]
        | ok es2 =>
          have hst : buildFieldList fields st = .ok (es2, st) := by
            rw [(ih _ (by omega)).2.2.2 fields st le_rfl hb, hpl]
          have hnl : buildFieldList fields [] = .ok (es2, []) := by
            rw [(ih _ (by omega)).2.2.2 fields [] le_rfl hb, hpl]
          cases hbt : buildType (tyOf (.structV name fields)) with
          | error er2 =>
            have hL : buildInner (.structV name fields) st = .error er2 := by
              rw [buildInner, hst]
              dsimp only []
              rw [hbt]
            have hRn : buildInner (.structV name fields) [] = .error er2 := by
              rw [buildInner, hnl]
              dsimp only []
              rw [hbt]
            have hP : pureExpr (.structV name fields) = .error er2 := by rw [pureExpr, hRn]
            rw [hL, hP]
          | ok te =>
            have hL : buildInner (.structV name fields) st = .ok (.composite te es2, st) := by
              rw [buildInner, hst]
              dsimp only []
              rw [hbt]
            have hRn : buildInner (.structV name fields) [] = .ok (.composite te es2, []) := by
              rw [buildInner, hnl]
              dsimp only []
              rw [hbt]
            have hP : pureExpr (.structV name fields) = .ok (.composite te es2) := by
              rw [pureExpr, hRn]
            rw [hL, hP]
      next elemTy elem =>
        cases elem with
        | none => rfl
        | some e2 =>
          rw [bindFree, Bool.and_eq_true] at hb
          obtain ⟨hns, hbf⟩ := hb
          have hsc : isScalarLit e2 = false := by simpa using hns
          simp at hs
          cases hpe : pureExpr e2 with
          | error er =>
            have hst : buildInner e2 st = .error er := by
              rw [(ih _ (by omega)).1 e2 st le_rfl hbf, hpe]
            have hnl : buildInner e2 [] = .error er := by
              rw [(ih _ (by omega)).1 e2 [] le_rfl hbf, hpe]
            have hL : buildInner (.ptrV elemTy (some e2)) st = .error er := by
              rw [buildInner, hst]
            have hRn : buildInner (.ptrV elemTy (some e2)) [] = .error er := by
              rw [buildInner, hnl]
            have hP : pureExpr (.ptrV elemTy (some e2)) = .error er := by rw [pureExpr, hRn]
            rw [hL, hP]
          | ok w =>
            have hst : buildInner e2 st = .ok (w, st) := by
              rw [(ih _ (by omega)).1 e2 st le_rfl hbf, hpe]
            have hnl : buildInner e2 [] = .ok (w, []) := by
              rw [(ih _ (by omega)).1 e2 [] le_rfl hbf, hpe]
            have hnb : notBasicLitP w := notBasicLit e2 st st w hsc hst
            have hL := ptr_some_ok elemTy e2 st st w hst hnb
            have hRn := ptr_some_ok elemTy e2 [] [] w hnl hnb
            have hP : pureExpr (.ptrV elemTy (some e2)) = .ok (.addrOf w) := by
              rw [pureExpr, hRn]
            rw [hL, hP]
    · intro vs st hs hb
      cases vs with
      | nil => rfl
      | cons v rest =>
        simp at hs
        rw [bindFreeList, Bool.and_eq_true] at hb
        obtain ⟨hbv, hbr⟩ := hb
        cases hpe : pureExpr v with
        | error er =>
          have hst : buildInner v st = .error er := by
            rw [(ih _ (by omega)).1 v st le_rfl hbv, hpe]
          have hnl : buildInner v [] = .error er := by
            rw [(ih _ (by omega)).1 v [] le_rfl hbv, hpe]
          have hL : buildValueList (v :: rest) st = .error er := by rw [buildValueList, hst]
          have hRn : buildValueList (v :: rest) [] = .error er := by rw [buildValueList, hnl]
          have hP : pureExprList (v :: rest) = .error er := by rw [pureExprList, hRn]
          rw [hL, hP]
        | ok e1 =>
          have hst : buildInner v st = .ok (e1, st) := by
            rw [(ih _ (by omega)).1 v st le_rfl hbv, hpe]
          have hnl : buildInner v [] = .ok (e1, []) := by
            rw [(ih _ (by omega)).1 v [] le_rfl hbv, hpe]
          cases hpl : pureExprList rest with
          | error er =>
            have hrs : buildValueList rest st = .error er := by
              rw [(ih _ (by omega)).2.1 rest st le_rfl hbr, hpl]
            have hrn : buildValueList rest [] = .error er := by
              rw [(ih _ (by omega)).2.1 rest [] le_rfl hbr, hpl]
            have hL : buildValueList (v :: rest) st = .error er := by
              rw [buildValueList, hst]
              dsimp only []
              rw [hrs]
            have hRn : buildValueList (v :: rest) [] = .error er := by
              rw [buildValueList, hnl]
              dsimp only []
              rw [hrn]
            have hP : pureExprList (v :: rest) = .error er := by rw [pureExprList, hRn]
            rw [hL, hP]
          | ok es =>
            have hrs : buildValueList rest st = .ok (es, st) := by
              rw [(ih _ (by omega)).2.1 rest st le_rfl hbr, hpl]
            have hrn : buildValueList rest [] = .ok (es, []) := by
              rw [(ih _ (by omega)).2.1 rest [] le_rfl hbr, hpl]
            have hL : buildValueList (v :: rest) st = .ok (e1 :: es, st) := by
              rw [buildValueList, hst]
              dsimp only []
              rw [hrs]
            have hRn : buildValueList (v :: rest) [] = .ok (e1 :: es, []) := by
              rw [buildValueList, hnl]
              dsimp only []
              rw [hrn]
            have hP : pureExprList (v :: rest) = .ok (e1 :: es) := by rw [pureExprList, hRn]
            rw [hL, hP]
    · intro ps st hs hb
      cases ps with
      | nil => rfl
      | cons p rest =>
        obtain ⟨k, v⟩ := p
        simp at hs
        rw [bindFreeEntries, Bool.and_eq_true, Bool.and_eq_true] at hb
        obtain ⟨⟨hbk, hbv⟩, hbr⟩ := hb
        cases hpk : pureExpr k with
        | error er =>
          have hst : buildInner k st = .error er := by
            rw [(ih _ (by omega)).1 k st le_rfl hbk, hpk]
          have hnl : buildInner k [] = .error er := by
            rw [(ih _ (by omega)).1 k [] le_rfl hbk, hpk]
          have hL : buildEntryList ((k, v) :: rest) st = .error er := by
            rw [buildEntryList, hst]
          have hRn : buildEntryList ((k, v) :: rest) [] = .error er := by
            rw [buildEntryList, hnl]
          have hP : pureEntryList ((k, v) :: rest) = .error er := by rw [pureEntryList, hRn]
          rw [hL, hP]
        | ok ke =>
          have hstk : buildInner k st = .ok (ke, st) := by
            rw [(ih _ (by omega)).1 k st le_rfl hbk, hpk]
          have hnlk : buildInner k [] = .ok (ke, []) := by
            rw [(ih _ (by omega)).1 k [] le_rfl hbk, hpk]
          cases hpv : pureExpr v with
          | error er =>
            have hstv : buildInner v st = .error er := by
              rw [(ih _ (by omega)).1 v st le_rfl hbv, hpv]
            have hnlv : buildInner v [] = .error er := by
              rw [(ih _ (by omega)).1 v [] le_rfl hbv, hpv]
            have hL : buildEntryList ((k, v) :: rest) st = .error er := by
              rw [buildEntryList, hstk]
              dsimp only []
              rw [hstv]
            have hRn : buildEntryList ((k, v) :: rest) [] = .error er := by
              rw [buildEntryList, hnlk]
              dsimp only []
              rw [hnlv]
            have hP : pureEntryList ((k, v) :: rest) = .error er := by rw [pureEntryList, hRn]
            rw [hL, hP]
          | ok ve =>
            have hstv : buildInner v st = .ok (ve, st) := by
              rw [(ih _ (by omega)).1 v st le_rfl hbv, hpv]
            have hnlv : buildInner v [] = .ok (ve, []) := by
              rw [(ih _ (by omega)).1 v [] le_rfl hbv, hpv]
            cases hpl : pureEntryList rest with
            | error er =>
              have hrs : buildEntryList rest st = .error er := by
                rw [(ih _ (by omega)).2.2.1 rest st le_rfl hbr, hpl]
              have hrn : buildEntryList rest [] = .error er := by
                rw [(ih _ (by omega)).2.2.1 rest [] le_rfl hbr, hpl]
              have hL : buildEntryList ((k, v) :: rest) st = .error er := by
                rw [buildEntryList, hstk]
                dsimp only []
                rw [hstv]
                dsimp only []
                rw [hrs]
              have hRn : buildEntryList ((k, v) :: rest) [] = .error er := by
                rw [buildEntryList, hnlk]
                dsimp only []
                rw [hnlv]
                dsimp only []
                rw [hrn]
              have hP : pureEntryList ((k, v) :: rest) = .error er := by rw [pureEntryList, hRn]
              rw [hL, hP]
            | ok es =>
              have hrs : buildEntryList rest st = .ok (es, st) := by
                rw [(ih _ (by omega)).2.2.1 rest st le_rfl hbr, hpl]
              have hrn : buildEntryList rest [] = .ok (es, []) := by
                rw [(ih _ (by omega)).2.2.1 rest [] le_rfl hbr, hpl]
              have hL : buildEntryList ((k, v) :: rest) st = .ok (.kv ke ve :: es, st) := by
                rw [buildEntryList, hstk]
                dsimp only []
                rw [hstv]
                dsimp only []
                rw [hrs]
              have hRn : buildEntryList ((k, v) :: rest) [] = .ok (.kv ke ve :: es, []) := by
                rw [buildEntryList, hnlk]
                dsimp only []
                rw [hnlv]
                dsimp only []
                rw [hrn]
              have hP : pureEntryList ((k, v) :: rest) = .ok (.kv ke ve :: es) := by
                rw [pureEntryList, hRn]
              rw [hL, hP]
    · intro fs st hs hb
      cases fs with
      | nil => rfl
      | cons f rest =>
        obtain ⟨nm, v⟩ := f
        simp at hs
        rw [bindFreeFields, Bool.and_eq_true] at hb
        obtain ⟨hor, hbr⟩ := hb
        by_cases hz : isZero v
        · have h1 : buildFieldList ((nm, v) :: rest) st = buildFieldList rest st := by
            rw [buildFieldList, if_pos hz]
          have h1n : buildFieldList ((nm, v) :: rest) [] = buildFieldList rest [] := by
            rw [buildFieldList, if_pos hz]
          have hP : pureFieldList ((nm, v) :: rest) = pureFieldList rest := by
            rw [pureFieldList, h1n]
            rfl
          rw [h1, hP]
          exact (ih _ (by omega)).2.2.2 rest st le_rfl hbr
        · have hbv : bindFree v = true := by
            rw [Bool.or_eq_true] at hor
            rcases hor with h | h
            · exact absurd h hz
            · exact h
          cases hpe : pureExpr v with
          | error er =>
            have hst : buildInner v st = .error er := by
              rw [(ih _ (by omega)).1 v st le_rfl hbv, hpe]
            have hnl : buildInner v [] = .error er := by
              rw [(ih _ (by omega)).1 v [] le_rfl hbv, hpe]
            have hL : buildFieldList ((nm, v) :: rest) st = .error er := by
              rw [buildFieldList, if_neg hz, hst]
            have hRn : buildFieldList ((nm, v) :: rest) [] = .error er := by
              rw [buildFieldList, if_neg hz, hnl]
            have hP : pureFieldList ((nm, v) :: rest) = .error er := by rw [pureFieldList, hRn]
            rw [hL, hP]
          | ok w =>
            have hst : buildInner v st = .ok (w, st) := by
              rw [(ih _ (by omega)).1 v st le_rfl hbv, hpe]
            have hnl : buildInner v [] = .ok (w, []) := by
              rw [(ih _ (by omega)).1 v [] le_rfl hbv, hpe]
            cases hpl : pureFieldList rest with
            | error er =>
              have hrs : buildFieldList rest st = .error er := by
                rw [(ih _ (by omega)).2.2.2 rest st le_rfl hbr, hpl]
              have hrn : buildFieldList rest [] = .error er := by
                rw [(ih _ (by omega)).2.2.2 rest [] le_rfl hbr, hpl]
              have hL : buildFieldList ((nm, v) :: rest) st = .error er := by
                rw [buildFieldList, if_neg hz, hst]
                dsimp only []
                rw [hrs]
              have hRn : buildFieldList ((nm, v) :: rest) [] = .error er := by
                rw [buildFieldList, if_neg hz, hnl]
                dsimp only []
                rw [hrn]
              have hP : pureFieldList ((nm, v) :: rest) = .error er := by
                rw [pureFieldList, hRn]
              rw [hL, hP]
            | ok ws =>
              have hrs : buildFieldList rest st = .ok (ws, st) := by
                rw [(ih _ (by omega)).2.2.2 rest st le_rfl hbr, hpl]
              have hrn : buildFieldList rest [] = .ok (ws, []) := by
                rw [(ih _ (by omega)).2.2.2 rest [] le_rfl hbr, hpl]
              have hL : buildFieldList ((nm, v) :: rest) st =
                  .ok (.kv (.ident nm) w :: ws, st) := by
                rw [buildFieldList, if_neg hz, hst]
                dsimp only []
                rw [hrs]
              have hRn : buildFieldList ((nm, v) :: rest) [] =
                  .ok (.kv (.ident nm) w :: ws, []) := by
                rw [buildFieldList, if_neg hz, hnl]
                dsimp only []
                rw [hrn]
              have hP : pureFieldList ((nm, v) :: rest) = .ok (.kv (.ident nm) w :: ws) := by
                rw [pureFieldList, hRn]
              rw [hL, hP]

/-- Binding freedom of an entry list, as a `List.all`. -/
theorem bindFreeEntries_all (ps : List (Value × Value)) :
    bindFreeEntries ps = ps.all (fun p => bindFree p.1 && bindFree p.2) := by
  induction ps with
  | nil => rfl
  | cons p rest ih =>
    obtain ⟨k, v⟩ := p
    rw [bindFreeEntries, List.all_cons, ih]

/-- For binding-free entries, the sequential entry build equals the
entry-local build. -/
theorem pureEntryList_eq_pureKVList : ∀ ps, bindFreeEntries ps = true →
    pureEntryList ps = pureKVList ps := by
  intro ps
  induction ps with
  | nil => intro h; rfl
  | cons p rest ih =>
    intro hb
    obtain ⟨k, v⟩ := p
    rw [bindFreeEntries, Bool.and_eq_true, Bool.and_eq_true] at hb
    obtain ⟨⟨hbk, hbv⟩, hbr⟩ := hb
    cases hpk : pureExpr k with
    | error er =>
      have hnl : buildInner k [] = .error er := by
        rw [(bindFree_pure (sizeOf k)).1 k [] le_rfl hbk, hpk]
      have hL : buildEntryList ((k, v) :: rest) [] = .error er := by rw [buildEntryList, hnl]
      have h1 : pureEntryList ((k, v) :: rest) = .error er := by rw [pureEntryList, hL]
      have hkv : pureKV (k, v) = .error er := by
        rw [pureKV]
        dsimp only []
        rw [hpk]
      have h2 : pureKVList ((k, v) :: rest) = .error er := by rw [pureKVList, hkv]
      rw [h1, h2]
    | ok ke =>
      have hnlk : buildInner k [] = .ok (ke, []) := by
        rw [(bindFree_pure (sizeOf k)).1 k [] le_rfl hbk, hpk]
      cases hpv : pureExpr v with
      | error er =>
        have hnlv : buildInner v [] = .error er := by
          rw [(bindFree_pure (sizeOf v)).1 v [] le_rfl hbv, hpv]
        have hL : buildEntryList ((k, v) :: rest) [] = .error er := by
          rw [buildEntryList, hnlk]
          dsimp only []
          rw [hnlv]
        have h1 : pureEntryList ((k, v) :: rest) = .error er := by rw [pureEntryList, hL]
        have hkv : pureKV (k, v) = .error er := by
          rw [pureKV]
          dsimp only []
          rw [hpk]
          dsimp only []
          rw [hpv]
        have h2 : pureKVList ((k, v) :: rest) = .error er := by rw [pureKVList, hkv]
        rw [h1, h2]
      | ok ve =>
        have hnlv : buildInner v [] = .ok (ve, []) := by
          rw [(bindFree_pure (sizeOf v)).1 v [] le_rfl hbv, hpv]
        have hkv : pureKV (k, v) = .ok (.kv ke ve) := by
          rw [pureKV]
          dsimp only []
          rw [hpk]
          dsimp only []
          rw [hpv]
        cases hpl : pureEntryList rest with
        | error er =>
          have hrn : buildEntryList rest [] = .error er := by
            rw [(bindFree_pure (sizeOf rest)).2.2.1 rest [] le_rfl hbr, hpl]
          have hL : buildEntryList ((k, v) :: rest) [] = .error er := by
            rw [buildEntryList, hnlk]
            dsimp only []
            rw [hnlv]
            dsimp only []
            rw [hrn]
          have h1 : pureEntryList ((k, v) :: rest) = .error er := by rw [pureEntryList, hL]
          have h2 : pureKVList ((k, v) :: rest) = .error er := by
            rw [pureKVList, hkv]
            dsimp only []
            rw [← ih hbr, hpl]
          rw [h1, h2]
        | ok es =>
          have hrn : buildEntryList rest [] = .ok (es, []) := by
            rw [(bindFree_pure (sizeOf rest)).2.2.1 rest [] le_rfl hbr, hpl]
          have hL : buildEntryList ((k, v) :: rest) [] = .ok (.kv ke ve :: es, []) := by
            rw [buildEntryList, hnlk]
            dsimp only []
            rw [hnlv]
            dsimp only []
            rw [hrn]
          have h1 : pureEntryList ((k, v) :: rest) = .ok (.kv ke ve :: es) := by
            rw [pureEntryList, hL]
          have h2 : pureKVList ((k, v) :: rest) = .ok (.kv ke ve :: es) := by
            rw [pureKVList, hkv]
            dsimp only []
            rw [← ih hbr, hpl]
          rw [h1, h2]

/-- A successful entry-local build is a `map` over the entries. -/
theorem pureKVList_map : ∀ ps es, pureKVList ps = .ok es → es = ps.map pureKVD := by
  intro ps
  induction ps with
  | nil =>
    intro es h
    rw [pureKVList] at h
    injection h with h
    rw [← h]
    rfl
  | cons p rest ih =>
    intro es h
    rw [pureKVList] at h
    cases hk : pureKV p with
    | error er => rw [hk] at h; simp at h
    | ok e =>
      rw [hk] at h
      dsimp only [] at h
      cases hr : pureKVList rest with
      | error er => rw [hr] at h; simp at h
      | ok es2 =>
        rw [hr] at h
        dsimp only [] at h
        injection h with h
        rw [← h, List.map_cons, ih es2 hr]
        congr 1
        rw [pureKVD, hk]

/-- Structural inequality gives `Expr.beq` false. -/
theorem beq_false_of_ne (a b : Expr) (h : a ≠ b) : Expr.beq a b = false := by
  cases hb : Expr.beq a b with
  | false => rfl
  | true => exact absurd (((beqSound (sizeOf a)).1 a b le_rfl).mp hb) h

/-- A scope lookup misses when the head binding differs and the rest
misses. -/
theorem scope_find_none (t v : Expr) (bv : BuilderVar) (rest : Scope)
    (ht : (Expr.beq t bv.typ && Expr.beq v bv.expr) = false)
    (hr : rest.find? (fun bv2 => Expr.beq t bv2.typ && Expr.beq v bv2.expr) = none) :
    ((bv :: rest).find? (fun bv2 => Expr.beq t bv2.typ && Expr.beq v bv2.expr)) = none := by
  rw [List.find?, ht, hr]

/-- A missed lookup appends a fresh binding named after the scope size. -/
theorem getVarName_fresh (t v : Expr) (st : Scope)
    (h : st.find? (fun bv => Expr.beq t bv.typ && Expr.beq v bv.expr) = none) :
    getVarName t v st =
      ("x" ++ toString st.length, st ++ [⟨"x" ++ toString st.length, t, v⟩]) := by
  rw [getVarName, h]

/-- Second pointer binding of the counterexample map, first iteration
order: the value 2 is bound as x1. -/
theorem ptr_step_a : buildInner (.ptrV .int (some (.intV 2)))
    [⟨"x0", .ident "int", .basicLit .int "1"⟩] =
    .ok (.addrOf (.ident "x1"),
      [⟨"x0", .ident "int", .basicLit .int "1"⟩,
       ⟨"x1", .ident "int", .basicLit .int "2"⟩]) := by
  have hbf : Expr.beq (.basicLit .int "2") (.basicLit .int "1") = false :=
    beq_false_of_ne _ _ (by intro h; injection h with h1 h2; exact absurd h2 (by decide))
  have hp : (Expr.beq (.ident "int")
        (⟨"x0", .ident "int", .basicLit .int "1"⟩ : BuilderVar).typ &&
      Expr.beq (.basicLit .int "2")
        (⟨"x0", .ident "int", .basicLit .int "1"⟩ : BuilderVar).expr) = false := by
    rw [show (⟨"x0", .ident "int", .basicLit .int "1"⟩ : BuilderVar).typ =
        .ident "int" from rfl,
      show (⟨"x0", .ident "int", .basicLit .int "1"⟩ : BuilderVar).expr =
        .basicLit .int "1" from rfl, hbf, Bool.and_false]
  have hfind := scope_find_none (.ident "int") (.basicLit .int "2")
    ⟨"x0", .ident "int", .basicLit .int "1"⟩ [] hp rfl
  have hgv := getVarName_fresh (.ident "int") (.basicLit .int "2")
    [⟨"x0", .ident "int", .basicLit .int "1"⟩] hfind
  rw [buildInner]
  rw [show buildInner (.intV 2) [⟨"x0", .ident "int", .basicLit .int "1"⟩] =
    .ok (.basicLit .int "2", [⟨"x0", .ident "int", .basicLit .int "1"⟩]) from rfl]
  dsimp only []
  rw [show buildType Ty.int = Except.ok (Expr.ident "int") from rfl]
  dsimp only []
  rw [hgv]
  rfl

/-- Second pointer binding of the counterexample map, reversed iteration
order: the value 1 is bound as x1. -/
theorem ptr_step_b : buildInner (.ptrV .int (some (.intV 1)))
    [⟨"x0", .ident "int", .basicLit .int "2"⟩] =
    .ok (.addrOf (.ident "x1"),
      [⟨"x0", .ident "int", .basicLit .int "2"⟩,
       ⟨"x1", .ident "int", .basicLit .int "1"⟩]) := by
  have hbf : Expr.beq (.basicLit .int "1") (.basicLit .int "2") = false :=
    beq_false_of_ne _ _ (by intro h; injection h with h1 h2; exact absurd h2 (by decide))
  have hp : (Expr.beq (.ident "int")
        (⟨"x0", .ident "int", .basicLit .int "2"⟩ : BuilderVar).typ &&
      Expr.beq (.basicLit .int "1")
        (⟨"x0", .ident "int", .basicLit .int "2"⟩ : BuilderVar).expr) = false := by
    rw [show (⟨"x0", .ident "int", .basicLit .int "2"⟩ : BuilderVar).typ =
        .ident "int" from rfl,
      show (⟨"x0", .ident "int", .basicLit .int "2"⟩ : BuilderVar).expr =
        .basicLit .int "2" from rfl, hbf, Bool.and_false]
  have hfind := scope_find_none (.ident "int") (.basicLit .int "1")
    ⟨"x0", .ident "int", .basicLit .int "2"⟩ [] hp rfl
  have hgv := getVarName_fresh (.ident "int") (.basicLit .int "1")
    [⟨"x0", .ident "int", .basicLit .int "2"⟩] hfind
  rw [buildInner]
  rw [show buildInner (.intV 1) [⟨"x0", .ident "int", .basicLit .int "2"⟩] =
    .ok (.basicLit .int "1", [⟨"x0", .ident "int", .basicLit .int "2"⟩]) from rfl]
  dsimp only []
  rw [show buildType Ty.int = Except.ok (Expr.ident "int") from rfl]
  dsimp only []
  rw [hgv]
  rfl

/-- Counterexample map, first iteration order. -/
theorem map_a : buildInner (.mapV .string (.ptr .int)
      [(.stringV ['a'], .ptrV .int (some (.intV 1))),
       (.stringV ['b'], .ptrV .int (some (.intV 2)))]) [] =
    .ok (.composite (.mapType (.ident "string") (.star (.ident "int")))
        [.kv (.basicLit .str "\"a\"") (.addrOf (.ident "x0")),
         .kv (.basicLit .str "\"b\"") (.addrOf (.ident "x1"))],
      [⟨"x0", .ident "int", .basicLit .int "1"⟩,
       ⟨"x1", .ident "int", .basicLit .int "2"⟩]) := by
  have hentries : buildEntryList
      [(.stringV ['a'], .ptrV .int (some (.intV 1))),
       (.stringV ['b'], .ptrV .int (some (.intV 2)))] [] =
      .ok ([.kv (.basicLit .str "\"a\"") (.addrOf (.ident "x0")),
            .kv (.basicLit .str "\"b\"") (.addrOf (.ident "x1"))],
        [⟨"x0", .ident "int", .basicLit .int "1"⟩,
         ⟨"x1", .ident "int", .basicLit .int "2"⟩]) := by
    rw [buildEntryList]
    rw [show buildInner (.stringV ['a']) [] =
      .ok (.basicLit .str "\"a\"", []) from rfl]
    dsimp only []
    rw [show buildInner (.ptrV .int (some (.intV 1))) [] =
      .ok (.addrOf (.ident "x0"), [⟨"x0", .ident "int", .basicLit .int "1"⟩]) from rfl]
    dsimp only []
    rw [buildEntryList]
    rw [show buildInner (.stringV ['b']) [⟨"x0", .ident "int", .basicLit .int "1"⟩] =
      .ok (.basicLit .str "\"b\"", [⟨"x0", .ident "int", .basicLit .int "1"⟩]) from rfl]
    dsimp only []
    rw [ptr_step_a]
    dsimp only []
    rw [buildEntryList]
  rw [buildInner, hentries]
  dsimp only []
  rw [show buildType (Ty.map .string (.ptr .int)) =
    Except.ok (Expr.mapType (.ident "string") (.star (.ident "int"))) from rfl]
  rfl

/-- Counterexample map, reversed iteration order. -/
theorem map_b : buildInner (.mapV .string (.ptr .int)
      [(.stringV ['b'], .ptrV .int (some (.intV 2))),
       (.stringV ['a'], .ptrV .int (some (.intV 1)))]) [] =
    .ok (.composite (.mapType (.ident "string") (.star (.ident "int")))
        [.kv (.basicLit .str "\"a\"") (.addrOf (.ident "x1")),
         .kv (.basicLit .str "\"b\"") (.addrOf (.ident "x0"))],
      [⟨"x0", .ident "int", .basicLit .int "2"⟩,
       ⟨"x1", .ident "int", .basicLit .int "1"⟩]) := by
  have hentries : buildEntryList
      [(.stringV ['b'], .ptrV .int (some (.intV 2))),
       (.stringV ['a'], .ptrV .int (some (.intV 1)))] [] =
      .ok ([.kv (.basicLit .str "\"b\"") (.addrOf (.ident "x0")),
            .kv (.basicLit .str "\"a\"") (.addrOf (.ident "x1"))],
        [⟨"x0", .ident "int", .basicLit .int "2"⟩,
         ⟨"x1", .ident "int", .basicLit .int "1"⟩]) := by
    rw [buildEntryList]
    rw [show buildInner (.stringV ['b']) [] =
      .ok (.basicLit .str "\"b\"", []) from rfl]
    dsimp only []
    rw [show buildInner (.ptrV .int (some (.intV 2))) [] =
      .ok (.addrOf (.ident "x0"), [⟨"x0", .ident "int", .basicLit .int "2"⟩]) from rfl]
    dsimp only []
    rw [buildEntryList]
    rw [show buildInner (.stringV ['a']) [⟨"x0", .ident "int", .basicLit .int "2"⟩] =
      .ok (.basicLit .str "\"a\"", [⟨"x0", .ident "int", .basicLit .int "2"⟩]) from rfl]
    dsimp only []
    rw [ptr_step_b]
    dsimp only []
    rw [buildEntryList]
  rw [buildInner, hentries]
  dsimp only []
  rw [show buildType (Ty.map .string (.ptr .int)) =
    Except.ok (Expr.mapType (.ident "string") (.star (.ident "int"))) from rfl]
  rfl

/-- Claim C1 counterexample.  (a) The sort key is the rendered text of the
whole key-value pair, not of the key alone: the map \x7b1: "a", 12: "b"\x7d
builds its element list as [12: "b", 1: "a"] because "12: ..." precedes
"1: ..." in text order, although the rendered key text "1" precedes "12" —
the list is not sorted by rendered key text.  (b) The order is also not
independent of iteration order once values allocate bindings: the same two
string-to-pointer entries built in the two iteration orders yield different
element lists (the binding names x0 and x1 swap). -/
theorem c1_counterexample :
    (buildInner (.mapV .int .string [(.intV 1, .stringV ['a']), (.intV 12, .stringV ['b'])]) []
        = .ok (.composite (.mapType (.ident "int") (.ident "string"))
            [.kv (.basicLit .int "12") (.basicLit .str "\"b\""),
             .kv (.basicLit .int "1") (.basicLit .str "\"a\"")], []) ∧
      ¬ renderKey (.basicLit .int "12") ≤ renderKey (.basicLit .int "1")) ∧
    (buildInner (.mapV .string (.ptr .int)
          [(.stringV ['a'], .ptrV .int (some (.intV 1))),
           (.stringV ['b'], .ptrV .int (some (.intV 2)))]) [] =
        .ok (.composite (.mapType (.ident "string") (.star (.ident "int")))
            [.kv (.basicLit .str "\"a\"") (.addrOf (.ident "x0")),
             .kv (.basicLit .str "\"b\"") (.addrOf (.ident "x1"))],
          [⟨"x0", .ident "int", .basicLit .int "1"⟩,
           ⟨"x1", .ident "int", .basicLit .int "2"⟩]) ∧
      buildInner (.mapV .string (.ptr .int)
          [(.stringV ['b'], .ptrV .int (some (.intV 2))),
           (.stringV ['a'], .ptrV .int (some (.intV 1)))]) [] =
        .ok (.composite (.mapType (.ident "string") (.star (.ident "int")))
            [.kv (.basicLit .str "\"a\"") (.addrOf (.ident "x1")),
             .kv (.basicLit .str "\"b\"") (.addrOf (.ident "x0"))],
          [⟨"x0", .ident "int", .basicLit .int "2"⟩,
           ⟨"x1", .ident "int", .basicLit .int "1"⟩]) ∧
      [Expr.kv (.basicLit .str "\"a\"") (.addrOf (.ident "x0")),
       .kv (.basicLit .str "\"b\"") (.addrOf (.ident "x1"))] ≠
        [Expr.kv (.basicLit .str "\"a\"") (.addrOf (.ident "x1")),
         .kv (.basicLit .str "\"b\"") (.addrOf (.ident "x0"))]) := by
  refine ⟨⟨rfl, by decide⟩, map_a, map_b, ?_⟩
  intro h
  injection h with h1 h2
  injection h1 with hk hv
  injection hv with hi
  injection hi with hs
  exact absurd hs (by decide)

/-- Claim C1 (amended): the entries of a built map composite literal are the
built key-value pairs sorted lexicographically by the rendered text of the
whole pair (the key text, a colon and space, and the value text — the
comparator renders each `KeyValueExpr` with `printer.Fprint`), a
deterministic total order on the built pairs; and for binding-free maps
whose rendered pair texts are pairwise distinct, any two iteration orders of
the same entries yield the same sorted element list. -/
theorem c1_amended (kt vt : Ty) (entries : List (Value × Value)) (st : Scope) :
    (∀ (pairs : List Expr) (st1 : Scope) (te : Expr),
      buildEntryList entries st = .ok (pairs, st1) →
      buildType (.map kt vt) = .ok te →
      buildInner (.mapV kt vt entries) st = .ok (.composite te (sortByRender pairs), st1) ∧
      (sortByRender pairs).Sorted (fun a b => renderKey a ≤ renderKey b) ∧
      (sortByRender pairs).Perm pairs) ∧
    (∀ (entries2 : List (Value × Value)) (pairs pairs2 : List Expr) (st1 st2 : Scope),
      entries2.Perm entries → bindFreeEntries entries = true →
      buildEntryList entries st = .ok (pairs, st1) →
      buildEntryList entries2 st = .ok (pairs2, st2) →
      (pairs.map renderKey).Nodup →
      sortByRender pairs2 = sortByRender pairs) := by
  constructor
  · intro pairs st1 te hbe hbt
    refine ⟨?_, sortByRender_sorted pairs, sortByRender_perm pairs⟩
    rw [buildInner, hbe]
    dsimp only []
    rw [hbt]
  · intro entries2 pairs pairs2 st1 st2 hperm hbf hbe hbe2 hnd
    have hbf2 : bindFreeEntries entries2 = true := by
      rw [bindFreeEntries_all, List.all_eq_true] at hbf ⊢
      intro p hp
      exact hbf p (hperm.mem_iff.mp hp)
    have h1 := (bindFree_pure (sizeOf entries)).2.2.1 entries st le_rfl hbf
    rw [h1] at hbe
    have h2 := (bindFree_pure (sizeOf entries2)).2.2.1 entries2 st le_rfl hbf2
    rw [h2] at hbe2
    cases hq1 : pureEntryList entries with
    | error er => rw [hq1] at hbe; simp at hbe
    | ok es =>
      rw [hq1] at hbe
      dsimp only [] at hbe
      simp only [Except.ok.injEq, Prod.mk.injEq] at hbe
      obtain ⟨hes, -⟩ := hbe
      cases hq2 : pureEntryList entries2 with
      | error er => rw [hq2] at hbe2; simp at hbe2
      | ok es2 =>
        rw [hq2] at hbe2
        dsimp only [] at hbe2
        simp only [Except.ok.injEq, Prod.mk.injEq] at hbe2
        obtain ⟨hes2, -⟩ := hbe2
        rw [pureEntryList_eq_pureKVList entries hbf] at hq1
        rw [pureEntryList_eq_pureKVList entries2 hbf2] at hq2
        have hm1 : es = entries.map pureKVD := pureKVList_map entries es hq1
        have hm2 : es2 = entries2.map pureKVD := pureKVList_map entries2 es2 hq2
        have hpp : pairs2.Perm pairs := by
          rw [← hes, ← hes2, hm1, hm2]
          exact hperm.map pureKVD
        exact sorted_perm_unique _ _
          ((sortByRender_perm pairs2).trans (hpp.trans (sortByRender_perm pairs).symm))
          (sortByRender_sorted pairs2) (sortByRender_sorted pairs)
          ((((sortByRender_perm pairs2).trans hpp).map renderKey).symm.nodup hnd)

theorem c1_amended_witness :
    (buildInner (.mapV .int .string [(.intV 1, .stringV ['a']), (.intV 12, .stringV ['b'])]) [] =
        .ok (.composite (.mapType (.ident "int") (.ident "string"))
          (sortByRender [.kv (.basicLit .int "1") (.basicLit .str "\"a\""),
            .kv (.basicLit .int "12") (.basicLit .str "\"b\"")]), []) ∧
      (sortByRender [.kv (.basicLit .int "1") (.basicLit .str "\"a\""),
        .kv (.basicLit .int "12") (.basicLit .str "\"b\"")]).Sorted
          (fun a b => renderKey a ≤ renderKey b) ∧
      (sortByRender [.kv (.basicLit .int "1") (.basicLit .str "\"a\""),
        .kv (.basicLit .int "12") (.basicLit .str "\"b\"")]).Perm
          [.kv (.basicLit .int "1") (.basicLit .str "\"a\""),
           .kv (.basicLit .int "12") (.basicLit .str "\"b\"")]) ∧
    sortByRender [.kv (.basicLit .int "12") (.basicLit .str "\"b\""),
        .kv (.basicLit .int "1") (.basicLit .str "\"a\"")] =
      sortByRender [.kv (.basicLit .int "1") (.basicLit .str "\"a\""),
        .kv (.basicLit .int "12") (.basicLit .str "\"b\"")] :=
  ⟨(c1_amended .int .string [(.intV 1, .stringV ['a']), (.intV 12, .stringV ['b'])] []).1
      [.kv (.basicLit .int "1") (.basicLit .str "\"a\""),
       .kv (.basicLit .int "12") (.basicLit .str "\"b\"")] [] _ rfl rfl,
    (c1_amended .int .string [(.intV 1, .stringV ['a']), (.intV 12, .stringV ['b'])] []).2
      [(.intV 12, .stringV ['b']), (.intV 1, .stringV ['a'])]
      [.kv (.basicLit .int "1") (.basicLit .str "\"a\""),
       .kv (.basicLit .int "12") (.basicLit .str "\"b\"")]
      [.kv (.basicLit .int "12") (.basicLit .str "\"b\""),
       .kv (.basicLit .int "1") (.basicLit .str "\"a\"")] [] []
      (List.Perm.swap (Value.intV 1, Value.stringV ['a']) (Value.intV 12, Value.stringV ['b']) [])
      (by decide) rfl rfl (by decide)⟩

end AstgenGo
